import Mathlib

/-!
Shallow embedding of the `stage-mylist` watchlist service
(TypeScript / Express / MongoDB / Redis) and proofs about its core:
cursor pagination, the cursor codec, version-based cache invalidation,
and the add/remove/list service layer.

Conventions of the embedding:
* MongoDB `ObjectId` values are modelled as their 24-character lowercase
  hex `String` representation; `Types.ObjectId.isValid` is modelled on
  strings (24 hex chars, or any 12-character string, as in mongoose).
* JS `Date` values are modelled as milliseconds since the Unix epoch
  (`Nat`); `Date.prototype.toISOString` and ISO parsing via `new Date(s)`
  are implemented over the proleptic Gregorian calendar for the
  non-negative epoch range (years 1970–9999, the 4-digit-year range of
  `toISOString`).
* Node `Buffer` base64 encoding/decoding is modelled on byte lists;
  the decoder is forgiving (non-alphabet characters are skipped and an
  incomplete trailing group is truncated), matching Node's behaviour on
  every string the encoder can produce.
* Strings crossing the byte boundary are ASCII in every reachable case
  (ISO timestamps, hex ids, `|`), where UTF-8 is the identity on codes.
-/

namespace MyListSpec

/-! ### Characters, digits, hex -/

def digitChar (n : Nat) : Char := Char.ofNat (48 + n)

def digitVal (c : Char) : Option Nat :=
  if 48 ≤ c.toNat ∧ c.toNat ≤ 57 then some (c.toNat - 48) else none

def isHexDigit (c : Char) : Bool :=
  (48 ≤ c.toNat && c.toNat ≤ 57) || (97 ≤ c.toNat && c.toNat ≤ 102) ||
    (65 ≤ c.toNat && c.toNat ≤ 70)

def isLowerHexDigit (c : Char) : Bool :=
  (48 ≤ c.toNat && c.toNat ≤ 57) || (97 ≤ c.toNat && c.toNat ≤ 102)

theorem digitVal_digitChar {n : Nat} (h : n < 10) :
    digitVal (digitChar n) = some n := by
  interval_cases n <;> decide

/-- mongoose `Types.ObjectId.isValid` on a string argument: a 24-character
hex string, or any 12-character (12-byte) string. -/
def isValidObjectId (s : String) : Bool :=
  (s.length == 24 && s.data.all isHexDigit) || s.length == 12

/-- A canonical stored ObjectId: 24 lowercase hex characters (what
`ObjectId.toString()` produces for every server-assigned `_id`). -/
def isCanonicalOid (s : String) : Bool :=
  s.length == 24 && s.data.all isLowerHexDigit

def toLowerHexChar (c : Char) : Char :=
  if 65 ≤ c.toNat ∧ c.toNat ≤ 70 then Char.ofNat (c.toNat + 32) else c

def hexOfNib (n : Nat) : Char :=
  if n < 10 then digitChar n else Char.ofNat (97 + (n - 10))

/-- Model of `new Types.ObjectId(s).toString()`: a 24-hex string is kept
(normalised to lowercase); a 12-byte string is hex-encoded bytewise. -/
def oidNormalize (s : String) : String :=
  if s.length == 24 && s.data.all isHexDigit then ⟨s.data.map toLowerHexChar⟩
  else ⟨(s.data.map (fun c => [hexOfNib (c.toNat / 16 % 16), hexOfNib (c.toNat % 16)])).flatten⟩

theorem oidNormalize_canonical {s : String} (h : isCanonicalOid s) :
    oidNormalize s = s := by
  unfold isCanonicalOid at h
  unfold oidNormalize
  have hlen : s.length = 24 := by
    simp only [Bool.and_eq_true, beq_iff_eq] at h; exact h.1
  have hall : ∀ c ∈ s.data, isLowerHexDigit c := by
    simp only [Bool.and_eq_true, List.all_eq_true] at h; exact h.2
  have hhex : s.data.all isHexDigit = true := by
    simp only [List.all_eq_true]
    intro c hc
    have := hall c hc
    unfold isLowerHexDigit at this
    unfold isHexDigit
    simp only [Bool.or_eq_true, Bool.and_eq_true, decide_eq_true_eq] at this ⊢
    tauto
  rw [if_pos (by simp [hlen, hhex])]
  cases s with
  | mk data =>
    congr 1
    apply (List.map_congr_left ?_).trans (List.map_id _)
    intro c hc
    have := hall c hc
    unfold isLowerHexDigit at this
    unfold toLowerHexChar
    simp only [id_eq, Bool.or_eq_true, Bool.and_eq_true, decide_eq_true_eq] at this ⊢
    rw [if_neg]
    omega

/-! ### Base64 (Node `Buffer` model) -/

def sextetChar (n : Nat) : Char :=
  if n < 26 then Char.ofNat (65 + n)
  else if n < 52 then Char.ofNat (97 + (n - 26))
  else if n < 62 then Char.ofNat (48 + (n - 52))
  else if n = 62 then '+' else '/'

def sextetVal (c : Char) : Option Nat :=
  let k := c.toNat
  if 65 ≤ k ∧ k ≤ 90 then some (k - 65)
  else if 97 ≤ k ∧ k ≤ 122 then some (26 + (k - 97))
  else if 48 ≤ k ∧ k ≤ 57 then some (52 + (k - 48))
  else if k = 43 then some 62
  else if k = 47 then some 63
  else none

/-- `Buffer.prototype.toString("base64")`: standard padded base64. -/
def base64EncodeBytes : List Nat → List Char
  | [] => []
  | [b1] => [sextetChar (b1 / 4), sextetChar (b1 % 4 * 16), '=', '=']
  | [b1, b2] =>
      [sextetChar (b1 / 4), sextetChar (b1 % 4 * 16 + b2 / 16), sextetChar (b2 % 16 * 4), '=']
  | b1 :: b2 :: b3 :: rest =>
      sextetChar (b1 / 4) :: sextetChar (b1 % 4 * 16 + b2 / 16) ::
        sextetChar (b2 % 16 * 4 + b3 / 64) :: sextetChar (b3 % 64) :: base64EncodeBytes rest

def base64Regroup : List Nat → List Nat
  | v1 :: v2 :: v3 :: v4 :: rest =>
      (v1 * 4 + v2 / 16) :: (v2 % 16 * 16 + v3 / 4) :: (v3 % 4 * 64 + v4) :: base64Regroup rest
  | [v1, v2, v3] => [v1 * 4 + v2 / 16, v2 % 16 * 16 + v3 / 4]
  | [v1, v2] => [v1 * 4 + v2 / 16]
  | _ => []

/-- `Buffer.from(s, "base64")`: forgiving decode — non-alphabet characters
(including `=`) are skipped, then sextets are regrouped into bytes. -/
def base64DecodeBytes (cs : List Char) : List Nat :=
  base64Regroup (cs.filterMap sextetVal)

theorem sextetVal_sextetChar : ∀ n < 64, sextetVal (sextetChar n) = some n := by
  decide

theorem sextetVal_pad : sextetVal '=' = none := by decide

theorem base64_roundtrip :
    ∀ bs : List Nat, (∀ b ∈ bs, b < 256) →
      base64DecodeBytes (base64EncodeBytes bs) = bs := by
  intro bs
  induction bs using base64EncodeBytes.induct with
  | case1 =>
      intro _; rfl
  | case2 b1 =>
      intro h
      have hb1 : b1 < 256 := h b1 (by simp)
      unfold base64DecodeBytes base64EncodeBytes
      rw [List.filterMap_cons, List.filterMap_cons, List.filterMap_cons, List.filterMap_cons]
      rw [sextetVal_sextetChar _ (by omega), sextetVal_sextetChar _ (by omega), sextetVal_pad]
      simp only [List.filterMap_nil]
      unfold base64Regroup
      congr 1
      omega
  | case3 b1 b2 =>
      intro h
      have hb1 : b1 < 256 := h b1 (by simp)
      have hb2 : b2 < 256 := h b2 (by simp)
      unfold base64DecodeBytes base64EncodeBytes
      rw [List.filterMap_cons, List.filterMap_cons, List.filterMap_cons, List.filterMap_cons]
      rw [sextetVal_sextetChar _ (by omega), sextetVal_sextetChar _ (by omega),
        sextetVal_sextetChar _ (by omega), sextetVal_pad]
      simp only [List.filterMap_nil]
      unfold base64Regroup
      congr 1
      · omega
      · congr 1; omega
  | case4 b1 b2 b3 rest ih =>
      intro h
      have hb1 : b1 < 256 := h b1 (by simp)
      have hb2 : b2 < 256 := h b2 (by simp)
      have hb3 : b3 < 256 := h b3 (by simp)
      have hrest : ∀ b ∈ rest, b < 256 := fun b hb => h b (by simp [hb])
      unfold base64DecodeBytes base64EncodeBytes
      rw [List.filterMap_cons, List.filterMap_cons, List.filterMap_cons, List.filterMap_cons]
      rw [sextetVal_sextetChar _ (by omega), sextetVal_sextetChar _ (by omega),
        sextetVal_sextetChar _ (by omega), sextetVal_sextetChar _ (by omega)]
      unfold base64Regroup
      have := ih hrest
      unfold base64DecodeBytes at this
      rw [this]
      congr 1
      · omega
      · congr 1
        · omega
        · congr 1; omega

/-! ### Dates (JS `Date` as milliseconds since the Unix epoch)

`toISOString` renders `YYYY-MM-DDTHH:mm:ss.sssZ`; `parseISO` models
`new Date(s)` on that strict format (the only format the service ever
produces), over years 1970–9999. -/

def isLeapYear (y : Nat) : Bool := y % 4 == 0 && (y % 100 != 0 || y % 400 == 0)

def daysInYear (y : Nat) : Nat := if isLeapYear y then 366 else 365

def monthLengths (leap : Bool) : List Nat :=
  [31, if leap then 29 else 28, 31, 30, 31, 30, 31, 31, 30, 31, 30, 31]

theorem daysInYear_pos (y : Nat) : 0 < daysInYear y := by
  unfold daysInYear; split <;> omega

/-- Total days in the `n` consecutive years starting at year `a`. -/
def yearsSum (a : Nat) : Nat → Nat
  | 0 => 0
  | n + 1 => daysInYear a + yearsSum (a + 1) n

/-- Walk forward from year `y`: split a day count into (year, day-of-year). -/
def yearFrom (y d : Nat) : Nat × Nat :=
  if daysInYear y ≤ d then yearFrom (y + 1) (d - daysInYear y) else (y, d)
termination_by d
decreasing_by have := daysInYear_pos y; omega

/-- Split a day-of-year into (month index, day-of-month index) against a
month-length table. -/
def monthFrom : List Nat → Nat → Nat × Nat
  | [], d => (0, d)
  | m :: ms, d =>
      if m ≤ d then
        let p := monthFrom ms (d - m)
        (p.1 + 1, p.2)
      else (0, d)

def pad2 (n : Nat) : List Char := [digitChar (n / 10 % 10), digitChar (n % 10)]

def pad3 (n : Nat) : List Char :=
  [digitChar (n / 100 % 10), digitChar (n / 10 % 10), digitChar (n % 10)]

def pad4 (n : Nat) : List Char :=
  [digitChar (n / 1000 % 10), digitChar (n / 100 % 10), digitChar (n / 10 % 10),
    digitChar (n % 10)]

def parseDigitsAux : List Char → Nat → Option Nat
  | [], acc => some acc
  | c :: cs, acc =>
      match digitVal c with
      | some v => parseDigitsAux cs (acc * 10 + v)
      | none => none

def parseDigits (cs : List Char) : Option Nat := parseDigitsAux cs 0

/-- Upper bound (exclusive) of the modelled date range:
the epoch milliseconds of 10000-01-01T00:00:00Z. -/
def isoMax : Nat := 253402300800000

/-- `Date.prototype.toISOString` for `0 ≤ t < isoMax`. -/
def toISOString (t : Nat) : String :=
  let days := t / 86400000
  let ms := t % 86400000
  let yr := yearFrom 1970 days
  let mp := monthFrom (monthLengths (isLeapYear yr.1)) yr.2
  ⟨pad4 yr.1 ++ '-' :: pad2 (mp.1 + 1) ++ '-' :: pad2 (mp.2 + 1) ++
    'T' :: pad2 (ms / 3600000) ++ ':' :: pad2 (ms % 3600000 / 60000) ++
    ':' :: pad2 (ms % 60000 / 1000) ++ '.' :: pad3 (ms % 1000) ++ ['Z']⟩

/-- Epoch day count of a calendar date (year ≥ 1970, month 1-based,
day 1-based). -/
def daysFromCivil (y m day : Nat) : Nat :=
  yearsSum 1970 (y - 1970) + ((monthLengths (isLeapYear y)).take (m - 1)).sum + (day - 1)

/-- Range-check and recombine parsed calendar fields into epoch millis. -/
def parseISOFields (yr mo da hh mi sec fff : Nat) : Option Nat :=
  if 1970 ≤ yr ∧ 1 ≤ mo ∧ mo ≤ 12 ∧ 1 ≤ da ∧
      da ≤ (monthLengths (isLeapYear yr)).getD (mo - 1) 0 ∧
      hh < 24 ∧ mi < 60 ∧ sec < 60 then
    some (daysFromCivil yr mo da * 86400000 + hh * 3600000 + mi * 60000 +
      sec * 1000 + fff)
  else none

/-- Model of `new Date(s).getTime()` on the strict ISO format produced by
`toISOString` (years 1970–9999; earlier or looser formats are out of the
model's range and map to `none`). -/
def parseISO (s : String) : Option Nat :=
  match s.data with
  | [y1, y2, y3, y4, '-', o1, o2, '-', a1, a2, 'T', h1, h2, ':', n1, n2, ':',
      e1, e2, '.', f1, f2, f3, 'Z'] =>
    match parseDigits [y1, y2, y3, y4], parseDigits [o1, o2], parseDigits [a1, a2],
        parseDigits [h1, h2], parseDigits [n1, n2], parseDigits [e1, e2],
        parseDigits [f1, f2, f3] with
    | some yr, some mo, some da, some hh, some mi, some sec, some fff =>
        parseISOFields yr mo da hh mi sec fff
    | _, _, _, _, _, _, _ => none
  | _ => none

theorem yearsSum_add (a m n : Nat) :
    yearsSum a (m + n) = yearsSum a m + yearsSum (a + m) n := by
  induction m generalizing a with
  | zero => simp [yearsSum]
  | succ k ih =>
      have : k + 1 + n = (k + n) + 1 := by omega
      rw [this]
      show daysInYear a + yearsSum (a + 1) (k + n) = _
      rw [ih (a + 1)]
      show _ = daysInYear a + yearsSum (a + 1) k + yearsSum (a + (k + 1)) n
      have : a + 1 + k = a + (k + 1) := by omega
      rw [this]
      omega

set_option maxRecDepth 20000 in
theorem yearsSum_400_blocks : ∀ k < 20, yearsSum (1970 + 400 * k) 400 = 146097 := by
  decide

theorem yearsSum_1970_8030 : yearsSum 1970 8030 = 2932897 := by
  have hstep : ∀ k, k ≤ 20 → yearsSum 1970 (400 * k) = 146097 * k := by
    intro k
    induction k with
    | zero => intro _; rfl
    | succ n ih =>
        intro h
        have hb := yearsSum_400_blocks n (by omega)
        have h1 : 400 * (n + 1) = 400 * n + 400 := by ring
        rw [h1, yearsSum_add, ih (by omega), hb]
        ring
  have h20 := hstep 20 (by omega)
  have h30 : yearsSum 9970 30 = 10957 := by decide
  have : (8030 : Nat) = 400 * 20 + 30 := by norm_num
  rw [this, yearsSum_add, h20]
  norm_num [h30]

theorem yearFrom_step {y d : Nat} (h : daysInYear y ≤ d) :
    yearFrom y d = yearFrom (y + 1) (d - daysInYear y) := by
  conv_lhs => rw [yearFrom]
  rw [if_pos h]

theorem yearFrom_last {y d : Nat} (h : ¬ daysInYear y ≤ d) :
    yearFrom y d = (y, d) := by
  conv_lhs => rw [yearFrom]
  rw [if_neg h]

theorem yearFrom_correct (d y : Nat) :
    y ≤ (yearFrom y d).1 ∧
    yearsSum y ((yearFrom y d).1 - y) + (yearFrom y d).2 = d ∧
    (yearFrom y d).2 < daysInYear (yearFrom y d).1 := by
  induction y, d using yearFrom.induct with
  | case1 y d h ih =>
      rw [yearFrom_step h]
      obtain ⟨ih1, ih2, ih3⟩ := ih
      refine ⟨by omega, ?_, ih3⟩
      have hn : (yearFrom (y + 1) (d - daysInYear y)).1 - y =
          ((yearFrom (y + 1) (d - daysInYear y)).1 - (y + 1)) + 1 := by omega
      rw [hn]
      have hsplit : ∀ m, yearsSum y (m + 1) = daysInYear y + yearsSum (y + 1) m := by
        intro m
        have h1 : m + 1 = 1 + m := by omega
        rw [h1, yearsSum_add]
        simp [yearsSum]
      rw [hsplit]
      omega
  | case2 y d h =>
      rw [yearFrom_last h]
      refine ⟨Nat.le_refl y, by simp [yearsSum], by simp; omega⟩

theorem monthFrom_correct :
    ∀ (ms : List Nat) (d : Nat), d < ms.sum →
      (monthFrom ms d).1 < ms.length ∧
      (ms.take (monthFrom ms d).1).sum + (monthFrom ms d).2 = d ∧
      (monthFrom ms d).2 < ms.getD (monthFrom ms d).1 0 := by
  intro ms
  induction ms with
  | nil => intro d h; simp at h
  | cons m rest ih =>
      intro d h
      by_cases hm : m ≤ d
      · have hd : d - m < rest.sum := by
          simp only [List.sum_cons] at h; omega
        obtain ⟨ih1, ih2, ih3⟩ := ih (d - m) hd
        simp only [monthFrom, if_pos hm]
        refine ⟨by simpa using ih1, ?_, by simpa using ih3⟩
        simp only [List.take_succ_cons, List.sum_cons]
        omega
      · simp only [monthFrom, if_neg hm]
        exact ⟨by simp, by simp, by simp; omega⟩

theorem parseDigits_pad2 {n : Nat} (h : n < 100) : parseDigits (pad2 n) = some n := by
  unfold parseDigits pad2 parseDigitsAux
  rw [digitVal_digitChar (by omega)]
  unfold parseDigitsAux
  rw [digitVal_digitChar (by omega)]
  unfold parseDigitsAux
  congr 1
  omega

theorem parseDigits_pad3 {n : Nat} (h : n < 1000) : parseDigits (pad3 n) = some n := by
  unfold parseDigits pad3 parseDigitsAux
  rw [digitVal_digitChar (by omega)]
  unfold parseDigitsAux
  rw [digitVal_digitChar (by omega)]
  unfold parseDigitsAux
  rw [digitVal_digitChar (by omega)]
  unfold parseDigitsAux
  congr 1
  omega

theorem parseDigits_pad4 {n : Nat} (h : n < 10000) : parseDigits (pad4 n) = some n := by
  unfold parseDigits pad4 parseDigitsAux
  rw [digitVal_digitChar (by omega)]
  unfold parseDigitsAux
  rw [digitVal_digitChar (by omega)]
  unfold parseDigitsAux
  rw [digitVal_digitChar (by omega)]
  unfold parseDigitsAux
  rw [digitVal_digitChar (by omega)]
  unfold parseDigitsAux
  congr 1
  omega

theorem monthLengths_sum (b : Bool) :
    (monthLengths b).sum = if b then 366 else 365 := by cases b <;> decide

theorem monthLengths_length (b : Bool) : (monthLengths b).length = 12 := by
  cases b <;> rfl

theorem monthLengths_le31 (b : Bool) : ∀ x ∈ monthLengths b, x ≤ 31 := by
  cases b <;> decide

theorem parseISO_pads (yv mov dav hhv miv secv fffv : Nat) :
    parseISO ⟨pad4 yv ++ '-' :: pad2 mov ++ '-' :: pad2 dav ++ 'T' :: pad2 hhv ++
        ':' :: pad2 miv ++ ':' :: pad2 secv ++ '.' :: pad3 fffv ++ ['Z']⟩ =
      match parseDigits (pad4 yv), parseDigits (pad2 mov), parseDigits (pad2 dav),
          parseDigits (pad2 hhv), parseDigits (pad2 miv), parseDigits (pad2 secv),
          parseDigits (pad3 fffv) with
      | some yr, some mo, some da, some hh, some mi, some sec, some fff =>
          parseISOFields yr mo da hh mi sec fff
      | _, _, _, _, _, _, _ => none := rfl

set_option maxRecDepth 4000 in
/-- The ISO round trip: formatting a representable instant and parsing it
back is the identity. -/
theorem parseISO_toISOString {t : Nat} (h : t < isoMax) :
    parseISO (toISOString t) = some t := by
  obtain ⟨hy1, hy2, hy3⟩ := yearFrom_correct (t / 86400000) 1970
  have hms : t % 86400000 < 86400000 := Nat.mod_lt _ (by norm_num)
  have hdb : t / 86400000 ≤ 2932896 := by unfold isoMax at h; omega
  have hy9999 : (yearFrom 1970 (t / 86400000)).1 ≤ 9999 := by
    by_contra hc
    push_neg at hc
    have h2 : yearsSum 1970 8030 ≤
        yearsSum 1970 ((yearFrom 1970 (t / 86400000)).1 - 1970) := by
      have he : (yearFrom 1970 (t / 86400000)).1 - 1970 =
          8030 + ((yearFrom 1970 (t / 86400000)).1 - 1970 - 8030) := by omega
      rw [he, yearsSum_add]
      omega
    rw [yearsSum_1970_8030] at h2
    omega
  have hsum : (monthLengths (isLeapYear (yearFrom 1970 (t / 86400000)).1)).sum =
      daysInYear (yearFrom 1970 (t / 86400000)).1 := by
    rw [monthLengths_sum]; rfl
  obtain ⟨hm1, hm2, hm3⟩ :=
    monthFrom_correct (monthLengths (isLeapYear (yearFrom 1970 (t / 86400000)).1))
      (yearFrom 1970 (t / 86400000)).2 (hsum ▸ hy3)
  have hmi12 : (monthFrom (monthLengths (isLeapYear (yearFrom 1970 (t / 86400000)).1))
      (yearFrom 1970 (t / 86400000)).2).1 < 12 := by
    rw [monthLengths_length] at hm1; exact hm1
  have hdom31 : (monthFrom (monthLengths (isLeapYear (yearFrom 1970 (t / 86400000)).1))
      (yearFrom 1970 (t / 86400000)).2).2 < 31 := by
    have hget : (monthLengths (isLeapYear (yearFrom 1970 (t / 86400000)).1)).getD
        (monthFrom (monthLengths (isLeapYear (yearFrom 1970 (t / 86400000)).1))
          (yearFrom 1970 (t / 86400000)).2).1 0 ≤ 31 := by
      rw [List.getD_eq_getElem _ _ hm1]
      exact monthLengths_le31 _ _ (List.getElem_mem hm1)
    omega
  show parseISO ⟨pad4 (yearFrom 1970 (t / 86400000)).1 ++
      '-' :: pad2 ((monthFrom (monthLengths (isLeapYear (yearFrom 1970 (t / 86400000)).1))
        (yearFrom 1970 (t / 86400000)).2).1 + 1) ++
      '-' :: pad2 ((monthFrom (monthLengths (isLeapYear (yearFrom 1970 (t / 86400000)).1))
        (yearFrom 1970 (t / 86400000)).2).2 + 1) ++
      'T' :: pad2 (t % 86400000 / 3600000) ++
      ':' :: pad2 (t % 86400000 % 3600000 / 60000) ++
      ':' :: pad2 (t % 86400000 % 60000 / 1000) ++
      '.' :: pad3 (t % 86400000 % 1000) ++ ['Z']⟩ = some t
  rw [parseISO_pads]
  rw [parseDigits_pad4 (by omega), parseDigits_pad2 (by omega),
    parseDigits_pad2 (by omega), parseDigits_pad2 (by omega),
    parseDigits_pad2 (by omega), parseDigits_pad2 (by omega),
    parseDigits_pad3 (by omega)]
  show parseISOFields _ _ _ _ _ _ _ = some t
  unfold parseISOFields
  rw [if_pos ?side]
  case side =>
    refine ⟨by omega, by omega, by omega, by omega, ?_, by omega, by omega, by omega⟩
    simpa using hm3
  refine congrArg some ?_
  unfold daysFromCivil
  simp only [Nat.add_sub_cancel]
  omega

/-! ### Strings as bytes (ASCII) and JS `String.prototype.split` -/

/-- `Buffer.from(s)` — UTF-8 bytes; identity on char codes in the ASCII
range, which covers every string this service feeds to a buffer. -/
def strBytes (s : String) : List Nat := s.data.map Char.toNat

/-- `buffer.toString("utf8")` for the codes arising here (ASCII). -/
def bytesStr (bs : List Nat) : String := ⟨bs.map Char.ofNat⟩

theorem bytesStr_strBytes (s : String) : bytesStr (strBytes s) = s := by
  unfold bytesStr strBytes
  cases s with
  | mk data =>
    congr 1
    rw [List.map_map]
    refine (List.map_congr_left ?_).trans (List.map_id _)
    intro c _
    exact Char.ofNat_toNat c

/-- JS `raw.split(sep)` for a one-character separator. -/
def splitChar (sep : Char) : List Char → List (List Char)
  | [] => [[]]
  | c :: rest =>
      if c = sep then [] :: splitChar sep rest
      else
        match splitChar sep rest with
        | [] => [[c]]
        | p :: ps => (c :: p) :: ps

theorem splitChar_ne_nil (sep : Char) (l : List Char) : splitChar sep l ≠ [] := by
  induction l with
  | nil => simp [splitChar]
  | cons c rest ih =>
      unfold splitChar
      by_cases h : c = sep
      · simp [h]
      · simp only [if_neg h]
        rcases hs : splitChar sep rest with _ | ⟨p, ps⟩
        · simp
        · simp

theorem splitChar_no_sep {sep : Char} {b : List Char} (h : sep ∉ b) :
    splitChar sep b = [b] := by
  induction b with
  | nil => rfl
  | cons c rest ih =>
      have hc : ¬ c = sep := by
        intro hc; exact h (hc ▸ List.mem_cons_self c rest)
      have hr : sep ∉ rest := fun hm => h (List.mem_cons_of_mem _ hm)
      unfold splitChar
      rw [if_neg hc, ih hr]

theorem splitChar_append {sep : Char} {a b : List Char}
    (ha : sep ∉ a) (hb : sep ∉ b) :
    splitChar sep (a ++ sep :: b) = [a, b] := by
  induction a with
  | nil =>
      simp only [List.nil_append]
      unfold splitChar
      rw [if_pos rfl, splitChar_no_sep hb]
  | cons c rest ih =>
      have hc : ¬ c = sep := by
        intro hc; exact ha (hc ▸ List.mem_cons_self c rest)
      have hr : sep ∉ rest := fun hm => ha (List.mem_cons_of_mem _ hm)
      simp only [List.cons_append]
      unfold splitChar
      rw [if_neg hc, ih hr]

/-! ### Error channel -/

/-- The `HttpError` class from `src/utils/httpError.ts`. -/
structure HttpError where
  status : Nat
  message : String
  code : Option String
  deriving Repr, DecidableEq

/-- Errors a service call can surface: typed `HttpError`s, the plain
`new Error(...)` throws, and a rejected redis promise propagating. -/
inductive ServiceError
  | http (e : HttpError)
  | jsError (msg : String)
  | redisError (msg : String)
  deriving Repr, DecidableEq

/-! ### Cursor codec -/

/-- The `nextCursor` construction in `getList`:
``Buffer.from(`${last.addedAt.toISOString()}|${last._id}`).toString("base64")``. -/
def encodeCursor (addedAt : Nat) (id : String) : String :=
  ⟨base64EncodeBytes (strBytes (toISOString addedAt ++ "|" ++ id))⟩

/-- The three `new Error(...)` throws inside `decodeCursorSafe`. -/
inductive CursorFail
  | format | date | id
  deriving Repr, DecidableEq

/-- The body of the `try` block of `decodeCursorSafe`. -/
def decodeCursorInner (cursor : String) : Except CursorFail (Nat × String) :=
  match splitChar '|' (bytesStr (base64DecodeBytes cursor.data)).data with
  | [] => .error .format
  | [a] =>
      -- destructuring gives `idStr = undefined`, which is falsy
      if a = [] then .error .format else .error .format
  | a :: i :: _ =>
      if a = [] ∨ i = [] then .error .format
      else
        match parseISO ⟨a⟩ with
        | none => .error .date
        | some addedAt =>
            if isValidObjectId ⟨i⟩ then .ok (addedAt, oidNormalize ⟨i⟩)
            else .error .id

/-- `decodeCursorSafe` from `myList.service.ts`: any failure inside the
`try` is converted to `HttpError(400, "Invalid cursor", "INVALID_CURSOR")`. -/
def decodeCursorSafe (cursor : String) : Except HttpError (Nat × String) :=
  match decodeCursorInner cursor with
  | .ok p => .ok p
  | .error _ => .error ⟨400, "Invalid cursor", some "INVALID_CURSOR"⟩

theorem digitChar_toNat {n : Nat} (h : n < 10) : (digitChar n).toNat = 48 + n := by
  interval_cases n <;> decide

theorem toISOString_chars (t : Nat) :
    ∀ c ∈ (toISOString t).data, c.toNat < 91 := by
  intro c hc
  unfold toISOString at hc
  simp only [pad4, pad2, pad3, List.cons_append, List.nil_append, List.append_assoc,
    List.mem_append, List.mem_cons, List.not_mem_nil, or_false] at hc
  rcases hc with h | h | h | h | h | h | h | h | h | h | h | h | h | h | h | h |
      h | h | h | h | h | h | h | h <;>
    first
      | (subst h; decide)
      | (subst h; rw [digitChar_toNat (by omega)]; omega)

theorem lowerHex_chars {id : String} (h : isCanonicalOid id) :
    ∀ c ∈ id.data, c.toNat < 103 := by
  intro c hc
  unfold isCanonicalOid at h
  simp only [Bool.and_eq_true, List.all_eq_true] at h
  have := h.2 c hc
  unfold isLowerHexDigit at this
  simp only [Bool.or_eq_true, Bool.and_eq_true, decide_eq_true_eq] at this
  omega

theorem isCanonicalOid_valid {id : String} (h : isCanonicalOid id) :
    isValidObjectId id = true := by
  unfold isCanonicalOid at h
  unfold isValidObjectId
  simp only [Bool.and_eq_true, beq_iff_eq, List.all_eq_true] at h
  simp only [Bool.or_eq_true, Bool.and_eq_true, beq_iff_eq, List.all_eq_true]
  left
  refine ⟨h.1, fun c hc => ?_⟩
  have := h.2 c hc
  unfold isLowerHexDigit at this
  unfold isHexDigit
  simp only [Bool.or_eq_true, Bool.and_eq_true, decide_eq_true_eq] at this ⊢
  tauto

/-- Round trip of the cursor codec on representable (timestamp, id) pairs. -/
theorem decodeCursor_roundtrip {t : Nat} {id : String}
    (ht : t < isoMax) (hid : isCanonicalOid id) :
    decodeCursorSafe (encodeCursor t id) = .ok (t, id) := by
  unfold decodeCursorSafe decodeCursorInner encodeCursor
  have hbytes : ∀ b ∈ strBytes (toISOString t ++ "|" ++ id), b < 256 := by
    intro b hb
    unfold strBytes at hb
    simp only [List.mem_map] at hb
    obtain ⟨c, hc, rfl⟩ := hb
    rw [String.data_append, String.data_append] at hc
    simp only [List.mem_append] at hc
    rcases hc with (hc | hc) | hc
    · have := toISOString_chars t c hc
      omega
    · simp only [List.mem_singleton] at hc
      subst hc; decide
    · have := lowerHex_chars hid c hc
      omega
  rw [show (⟨base64EncodeBytes (strBytes (toISOString t ++ "|" ++ id))⟩ : String).data
      = base64EncodeBytes (strBytes (toISOString t ++ "|" ++ id)) from rfl]
  rw [base64_roundtrip _ hbytes, bytesStr_strBytes]
  have hdata : (toISOString t ++ "|" ++ id).data =
      (toISOString t).data ++ '|' :: id.data := by
    rw [String.data_append, String.data_append]
    rfl
  rw [hdata]
  have hnoiso : '|' ∉ (toISOString t).data := by
    intro hm
    have := toISOString_chars t _ hm
    simp at this
  have hnoid : '|' ∉ id.data := by
    intro hm
    have := lowerHex_chars hid _ hm
    simp at this
  rw [splitChar_append hnoiso hnoid]
  simp only []
  have hisone : (toISOString t).data ≠ [] := by
    unfold toISOString pad4
    simp
  have hidne : id.data ≠ [] := by
    unfold isCanonicalOid at hid
    simp only [Bool.and_eq_true, beq_iff_eq] at hid
    intro hm
    have : id.length = 0 := by
      cases id with
      | mk data => simpa [String.length] using congrArg List.length hm
    omega
  rw [if_neg (by simp [hisone, hidne])]
  rw [show (⟨(toISOString t).data⟩ : String) = toISOString t from rfl]
  rw [parseISO_toISOString ht]
  rw [show (⟨id.data⟩ : String) = id from rfl]
  simp only []
  rw [if_pos (isCanonicalOid_valid hid)]
  rw [oidNormalize_canonical hid]

/-- Total failure mode: `decodeCursorSafe` either succeeds or fails with
exactly the 400 `INVALID_CURSOR` error — no other outcome. -/
theorem decodeCursor_total (token : String) :
    (∃ p, decodeCursorSafe token = .ok p) ∨
      decodeCursorSafe token = .error ⟨400, "Invalid cursor", some "INVALID_CURSOR"⟩ := by
  unfold decodeCursorSafe
  rcases decodeCursorInner token with p | e
  · right; rfl
  · left; exact ⟨_, rfl⟩

/-! ### Data model (`src/models/*.ts`) -/

inductive ContentType
  | movie | tvshow
  deriving Repr, DecidableEq

inductive Visibility
  | available | unavailable | removed
  deriving Repr, DecidableEq

structure Snapshot where
  title : String
  posterUrl : Option String
  genres : List String
  shortDescription : Option String
  deriving Repr, DecidableEq

/-- A document of the `MyListItem` collection (`src/models/myListItem.ts`).
`_id` and the id references are canonical ObjectId hex strings; `addedAt`
is epoch milliseconds. -/
structure MyListItem where
  _id : String
  userId : String
  contentId : String
  contentType : ContentType
  episodeId : Option String
  addedAt : Nat
  snapshot : Snapshot
  contentVisibility : Visibility
  deriving Repr, DecidableEq

/-- The sort key comparator of `.sort({ addedAt: -1, _id: -1 })`:
`x` may precede `y` (newest first, ties broken by larger `_id` first). -/
def keyGE (x y : MyListItem) : Bool :=
  decide (y.addedAt < x.addedAt) ||
    (y.addedAt == x.addedAt && decide (y._id ≤ x._id))

/-- Strict version of the ordering: `x` is strictly before `y`. -/
def keyGT (x y : MyListItem) : Prop :=
  y.addedAt < x.addedAt ∨ (y.addedAt = x.addedAt ∧ y._id < x._id)

theorem keyGE_trans (a b c : MyListItem) :
    keyGE a b = true → keyGE b c = true → keyGE a c = true := by
  unfold keyGE
  simp only [Bool.or_eq_true, Bool.and_eq_true, decide_eq_true_eq, beq_iff_eq]
  rintro (h1 | ⟨h1, h1b⟩) (h2 | ⟨h2, h2b⟩)
  · left; omega
  · left; omega
  · left; omega
  · right; exact ⟨by omega, le_trans h2b h1b⟩

theorem keyGE_total (a b : MyListItem) : (keyGE a b || keyGE b a) = true := by
  unfold keyGE
  simp only [Bool.or_eq_true, Bool.and_eq_true, decide_eq_true_eq, beq_iff_eq]
  rcases Nat.lt_trichotomy a.addedAt b.addedAt with h | h | h
  · right; left; omega
  · rcases le_total a._id b._id with hid | hid
    · right; right; exact ⟨h, hid⟩
    · left; right; exact ⟨h.symm, hid⟩
  · left; left; omega

theorem keyGT_asymm {a b : MyListItem} (h1 : keyGT a b) (h2 : keyGT b a) : False := by
  unfold keyGT at h1 h2
  rcases h1 with h1 | ⟨h1, h1b⟩ <;> rcases h2 with h2 | ⟨h2, h2b⟩
  · omega
  · omega
  · omega
  · exact absurd (h1b.trans h2b) (lt_irrefl _)

theorem keyGE_and_ne_of_keyGT {a b : MyListItem} :
    keyGE a b = true → a._id ≠ b._id → keyGT a b := by
  unfold keyGE keyGT
  simp only [Bool.or_eq_true, Bool.and_eq_true, decide_eq_true_eq, beq_iff_eq]
  rintro (h | ⟨h, hle⟩) hne
  · left; exact h
  · right; exact ⟨h, lt_of_le_of_ne hle (fun he => hne he.symm)⟩

/-! ### Membership-store query (`MyListItemModel.find(...).sort(...).limit(...)`) -/

/-- The `$or` cursor filter built in `getList`:
`[{ addedAt: { $lt: a } }, { addedAt: a, _id: { $lt: id } }]`. -/
def cursorPred (cur : Option (Nat × String)) (r : MyListItem) : Bool :=
  match cur with
  | none => true
  | some (a, i) =>
      decide (r.addedAt < a) || (r.addedAt == a && decide (r._id < i))

/-- The full find filter: `userId` match, optional `contentType`, cursor. -/
def listFilter (userId : String) (ct : Option ContentType)
    (cur : Option (Nat × String)) (r : MyListItem) : Bool :=
  r.userId == userId &&
    (match ct with | none => true | some c => r.contentType == c) &&
    cursorPred cur r

/-- `find(query).sort({ addedAt: -1, _id: -1 }).limit(lim)`. -/
def listQuery (store : List MyListItem) (userId : String) (ct : Option ContentType)
    (cur : Option (Nat × String)) (lim : Nat) : List MyListItem :=
  ((store.filter (listFilter userId ct cur)).mergeSort keyGE).take lim

/-- The `{ items, nextCursor, total? }` payload returned by `getList`. -/
structure ListPayload where
  items : List MyListItem
  nextCursor : Option String
  total : Option Nat
  deriving Repr, DecidableEq

/-- `countDocuments({ userId })` — deliberately unfiltered by contentType. -/
def countForUser (store : List MyListItem) (userId : String) : Nat :=
  (store.filter (fun r => r.userId == userId)).length

/-- The database read path of `getList` (source lines building `docs`,
`nextCursor` and the payload), for an already-decoded cursor. `none`
models the `TypeError` JS would raise at `docs[limit - 1]` when
`limit = 0` and the query returns a record — unreachable for clamped
limits. -/
def buildPage (store : List MyListItem) (userId : String) (ct : Option ContentType)
    (cur : Option (Nat × String)) (limit : Nat) (includeTotal : Bool) :
    Option ListPayload :=
  let docs := listQuery store userId ct cur (limit + 1)
  let total := if includeTotal then some (countForUser store userId) else none
  if limit < docs.length then
    match (if 1 ≤ limit then docs[limit - 1]? else none) with
    | none => none
    | some last =>
        some { items := docs.take limit
               nextCursor := some (encodeCursor last.addedAt last._id)
               total := total }
  else
    some { items := docs, nextCursor := none, total := total }

/-- The read path of `getList` from cursor decoding onward (the code run
on every page-cache miss): decode the cursor if present, query, build the
payload. -/
def getListDb (store : List MyListItem) (userId : String) (limit : Nat)
    (cursor : Option String) (ct : Option ContentType) (includeTotal : Bool) :
    Except HttpError (Option ListPayload) :=
  match cursor with
  | none => .ok (buildPage store (oidNormalize userId) ct none limit includeTotal)
  | some c =>
      match decodeCursorSafe c with
      | .error e => .error e
      | .ok p => .ok (buildPage store (oidNormalize userId) ct (some p) limit includeTotal)

/-- Chain `getListDb` through returned `nextCursor` tokens until `null`,
concatenating the pages. -/
def collectPages (store : List MyListItem) (userId : String) (limit : Nat) :
    Nat → Option String → Option (List MyListItem)
  | 0, _ => none
  | fuel + 1, cursor =>
      match getListDb store userId limit cursor none false with
      | .error _ => none
      | .ok none => none
      | .ok (some p) =>
          match p.nextCursor with
          | none => some p.items
          | some c =>
              match collectPages store userId limit fuel (some c) with
              | none => none
              | some rest => some (p.items ++ rest)

/-! ### Pagination lemmas -/

theorem perm_pairwise_eq {α : Type} {R : α → α → Prop}
    (hasym : ∀ a b, R a b → R b a → False) :
    ∀ {l l' : List α}, l.Perm l' → l.Pairwise R → l'.Pairwise R → l = l' := by
  intro l
  induction l with
  | nil =>
      intro l' hp _ _
      exact hp.nil_eq
  | cons a t ih =>
      intro l' hp h1 h2
      cases l' with
      | nil =>
          have := hp.symm.nil_eq
          cases this
      | cons b t' =>
          have hab : a = b := by
            by_contra hne
            have ha : a ∈ b :: t' := hp.subset (by simp)
            have hb : b ∈ a :: t := hp.symm.subset (by simp)
            have ha2 : a ∈ t' := by
              rcases List.mem_cons.mp ha with h | h
              · exact absurd h hne
              · exact h
            have hb2 : b ∈ t := by
              rcases List.mem_cons.mp hb with h | h
              · exact absurd h.symm hne
              · exact h
            exact hasym a b ((List.pairwise_cons.mp h1).1 b hb2)
              ((List.pairwise_cons.mp h2).1 a ha2)
          subst hab
          rw [ih hp.cons_inv (List.pairwise_cons.mp h1).2 (List.pairwise_cons.mp h2).2]

theorem cursorPred_iff {x r : MyListItem} :
    cursorPred (some (x.addedAt, x._id)) r = true ↔ keyGT x r := by
  unfold cursorPred keyGT
  simp only [Bool.or_eq_true, Bool.and_eq_true, decide_eq_true_eq, beq_iff_eq]

theorem mergeSort_keyGE_sorted (l : List MyListItem) :
    (l.mergeSort keyGE).Pairwise (fun a b => keyGE a b = true) :=
  List.sorted_mergeSort keyGE_trans keyGE_total l

theorem pairwise_keyGT_of_sorted_nodup {l : List MyListItem}
    (hs : l.Pairwise (fun a b => keyGE a b = true))
    (hn : (l.map MyListItem._id).Nodup) : l.Pairwise keyGT := by
  have hn2 : l.Pairwise (fun a b => a._id ≠ b._id) := List.pairwise_map.mp hn
  exact (hs.and hn2).imp (fun h => keyGE_and_ne_of_keyGT h.1 h.2)

theorem filter_cursor_drop :
    ∀ (M : List MyListItem), M.Pairwise keyGT →
      ∀ i (hi : i < M.length),
        M.filter (cursorPred (some ((M.get ⟨i, hi⟩).addedAt, (M.get ⟨i, hi⟩)._id))) =
          M.drop (i + 1) := by
  intro M
  induction M with
  | nil => intro _ i hi; simp at hi
  | cons a t ih =>
      intro hp i hi
      rcases Nat.eq_zero_or_pos i with rfl | hpos
      · show (a :: t).filter (cursorPred (some (a.addedAt, a._id))) = t
        rw [List.filter_cons]
        have hself : cursorPred (some (a.addedAt, a._id)) a = false := by
          rw [Bool.eq_false_iff]
          intro hc
          exact keyGT_asymm (cursorPred_iff.mp hc) (cursorPred_iff.mp hc)
        rw [hself]
        simp only [Bool.false_eq_true, if_false]
        exact List.filter_eq_self.mpr
          (fun r hr => cursorPred_iff.mpr ((List.pairwise_cons.mp hp).1 r hr))
      · obtain ⟨j, rfl⟩ : ∃ j, i = j + 1 := ⟨i - 1, by omega⟩
        have hj : j < t.length := by simpa using hi
        show (a :: t).filter
            (cursorPred (some ((t.get ⟨j, hj⟩).addedAt, (t.get ⟨j, hj⟩)._id))) =
          t.drop (j + 1)
        rw [List.filter_cons]
        have hhead : cursorPred (some ((t.get ⟨j, hj⟩).addedAt,
            (t.get ⟨j, hj⟩)._id)) a = false := by
          have hgt : keyGT a (t.get ⟨j, hj⟩) :=
            (List.pairwise_cons.mp hp).1 _ (t.get_mem j hj)
          rw [Bool.eq_false_iff]
          intro hc
          exact keyGT_asymm hgt (cursorPred_iff.mp hc)
        rw [hhead]
        simp only [Bool.false_eq_true, if_false]
        exact ih (List.pairwise_cons.mp hp).2 j hj

theorem listFilter_none (u : String) (cur : Option (Nat × String)) (r : MyListItem) :
    listFilter u none cur r = (cursorPred cur r && (r.userId == u)) := by
  unfold listFilter
  cases h1 : (r.userId == u) <;> cases h2 : cursorPred cur r <;> simp

theorem mergeSort_filter_comm (F : List MyListItem) (B : MyListItem → Bool)
    (hn : (F.map MyListItem._id).Nodup) :
    (F.filter B).mergeSort keyGE = (F.mergeSort keyGE).filter B := by
  have hperm : ((F.filter B).mergeSort keyGE).Perm ((F.mergeSort keyGE).filter B) :=
    (List.mergeSort_perm _ _).trans ((List.mergeSort_perm F keyGE).filter B).symm
  have hnM : ((F.mergeSort keyGE).map MyListItem._id).Nodup :=
    ((List.Perm.map MyListItem._id (List.mergeSort_perm F keyGE)).nodup_iff).mpr hn
  have hnFB : (((F.filter B).mergeSort keyGE).map MyListItem._id).Nodup := by
    refine ((List.Perm.map MyListItem._id (List.mergeSort_perm _ keyGE)).nodup_iff).mpr ?_
    exact hn.sublist (List.Sublist.map MyListItem._id (F.filter_sublist))
  refine perm_pairwise_eq (R := keyGT) (fun a b h1 h2 => keyGT_asymm h1 h2) hperm ?_ ?_
  · exact pairwise_keyGT_of_sorted_nodup (mergeSort_keyGE_sorted _) hnFB
  · exact (pairwise_keyGT_of_sorted_nodup (mergeSort_keyGE_sorted _) hnM).filter B

/-- The user's records in query order: the sorted source of every page. -/
def sortedUser (store : List MyListItem) (u : String) : List MyListItem :=
  (store.filter (fun r => r.userId == u)).mergeSort keyGE

theorem sortedUser_pairwise {store : List MyListItem} {u : String}
    (hids : (store.map MyListItem._id).Nodup) :
    (sortedUser store u).Pairwise keyGT := by
  apply pairwise_keyGT_of_sorted_nodup (mergeSort_keyGE_sorted _)
  refine ((List.Perm.map MyListItem._id (List.mergeSort_perm _ keyGE)).nodup_iff).mpr ?_
  exact hids.sublist (List.Sublist.map MyListItem._id (store.filter_sublist))

theorem listQuery_eq {store : List MyListItem} {u : String}
    (hids : (store.map MyListItem._id).Nodup)
    (cur : Option (Nat × String)) (lim : Nat) :
    listQuery store u none cur lim =
      ((sortedUser store u).filter (cursorPred cur)).take lim := by
  unfold listQuery sortedUser
  congr 1
  rw [List.filter_congr (fun r _ => listFilter_none u cur r)]
  rw [← List.filter_filter]
  exact mergeSort_filter_comm _ _
    (hids.sublist (List.Sublist.map MyListItem._id (store.filter_sublist)))

theorem buildPage_step {store : List MyListItem} {u : String} {limit k : Nat}
    (hlim : 1 ≤ limit)
    (hids : (store.map MyListItem._id).Nodup)
    (cur : Option (Nat × String))
    (hf : (sortedUser store u).filter (cursorPred cur) = (sortedUser store u).drop k)
    (hk : k ≤ (sortedUser store u).length) :
    (∀ hmore : k + limit < (sortedUser store u).length,
      buildPage store u none cur limit false = some
        { items := ((sortedUser store u).drop k).take limit
          nextCursor := some (encodeCursor
            ((sortedUser store u).get ⟨k + limit - 1, by omega⟩).addedAt
            ((sortedUser store u).get ⟨k + limit - 1, by omega⟩)._id)
          total := none }) ∧
    (¬ k + limit < (sortedUser store u).length →
      buildPage store u none cur limit false = some
        { items := (sortedUser store u).drop k, nextCursor := none, total := none }) := by
  unfold buildPage
  rw [listQuery_eq hids, hf]
  simp only [Bool.false_eq_true, if_false]
  constructor
  · intro hmore
    have hlen : (((sortedUser store u).drop k).take (limit + 1)).length = limit + 1 := by
      rw [List.length_take, List.length_drop]
      omega
    rw [if_pos (by omega), if_pos hlim]
    have hget : (((sortedUser store u).drop k).take (limit + 1))[limit - 1]? =
        some ((sortedUser store u).get ⟨k + limit - 1, by omega⟩) := by
      rw [List.getElem?_take, if_pos (by omega), List.getElem?_drop]
      have he : k + (limit - 1) = k + limit - 1 := by omega
      rw [he, List.getElem?_eq_getElem (by omega)]
      rfl
    rw [hget]
    have hitems : (((sortedUser store u).drop k).take (limit + 1)).take limit =
        ((sortedUser store u).drop k).take limit := by
      rw [List.take_take]
      congr 1
      omega
    rw [hitems]
  · intro hless
    have hlen2 : ((sortedUser store u).drop k).length ≤ limit := by
      rw [List.length_drop]; omega
    rw [List.take_of_length_le (by omega)]
    rw [if_neg (by omega)]

theorem collect_suffix
    {store : List MyListItem} {u : String} {limit : Nat}
    (hlim : 1 ≤ limit)
    (hids : (store.map MyListItem._id).Nodup)
    (hcanon : ∀ r ∈ store, isCanonicalOid r._id)
    (hdates : ∀ r ∈ store, r.addedAt < isoMax)
    (hu : oidNormalize u = u) :
    ∀ fuel k (cur : Option String),
      k ≤ (sortedUser store u).length →
      (sortedUser store u).length - k < fuel →
      ((k = 0 ∧ cur = none) ∨
        (∃ hk : k - 1 < (sortedUser store u).length, 1 ≤ k ∧
          cur = some (encodeCursor ((sortedUser store u).get ⟨k - 1, hk⟩).addedAt
            ((sortedUser store u).get ⟨k - 1, hk⟩)._id))) →
      collectPages store u limit fuel cur = some ((sortedUser store u).drop k) := by
  have hmem : ∀ i (hi : i < (sortedUser store u).length),
      (sortedUser store u).get ⟨i, hi⟩ ∈ store := by
    intro i hi
    have h1 : (sortedUser store u).get ⟨i, hi⟩ ∈ sortedUser store u :=
      (sortedUser store u).get_mem i hi
    exact List.mem_of_mem_filter ((List.mergeSort_perm _ keyGE).subset h1)
  have hpair : (sortedUser store u).Pairwise keyGT := sortedUser_pairwise hids
  intro fuel
  induction fuel with
  | zero => intro k cur hk hfuel hcur; omega
  | succ fuel ih =>
      intro k cur hk hfuel hcur
      -- establish the decoded cursor and the suffix equation
      obtain ⟨pair, hdbeq, hf⟩ :
          ∃ pair : Option (Nat × String),
            getListDb store u limit cur none false =
              .ok (buildPage store u none pair limit false) ∧
            (sortedUser store u).filter (cursorPred pair) =
              (sortedUser store u).drop k := by
        rcases hcur with ⟨rfl, rfl⟩ | ⟨hk2, hk1, rfl⟩
        · refine ⟨none, ?_, ?_⟩
          · unfold getListDb
            simp only []
            rw [hu]
          · have hft : List.filter (cursorPred none) (sortedUser store u) =
                sortedUser store u :=
              List.filter_eq_self.mpr (fun r _ => rfl)
            rw [hft, List.drop_zero]
        · set x := (sortedUser store u).get ⟨k - 1, hk2⟩ with hx
          refine ⟨some (x.addedAt, x._id), ?_, ?_⟩
          · unfold getListDb
            simp only []
            rw [decodeCursor_roundtrip (hdates x (hmem _ hk2)) (hcanon x (hmem _ hk2))]
            simp only []
            rw [hu]
          · have hfd := filter_cursor_drop (sortedUser store u) hpair (k - 1) hk2
            rw [← hx] at hfd
            rw [hfd]
            congr 1
            omega
      obtain ⟨hstep1, hstep2⟩ := buildPage_step hlim hids pair hf hk
      show (match getListDb store u limit cur none false with
        | .error _ => none
        | .ok none => none
        | .ok (some p) =>
            match p.nextCursor with
            | none => some p.items
            | some c =>
                match collectPages store u limit fuel (some c) with
                | none => none
                | some rest => some (p.items ++ rest)) = _
      rw [hdbeq]
      by_cases hmore : k + limit < (sortedUser store u).length
      · rw [hstep1 hmore]
        simp only []
        have hrec := ih (k + limit)
          (some (encodeCursor ((sortedUser store u).get ⟨k + limit - 1, by omega⟩).addedAt
            ((sortedUser store u).get ⟨k + limit - 1, by omega⟩)._id))
          (by omega) (by omega)
          (Or.inr ⟨by omega, by omega, by
            congr 1⟩)
        rw [hrec]
        simp only []
        congr 1
        have hdd : ((sortedUser store u).drop k).drop limit =
            (sortedUser store u).drop (k + limit) := by
          rw [List.drop_drop]
        rw [← hdd, List.take_append_drop]
      · rw [hstep2 hmore]

/-! ### Claim C1 -/

/-- C1: For every user whose store holds N membership records, repeatedly
calling List (getList) and chaining the returned `nextCursor` until it is
null yields exactly the N records — no duplicates, no omissions — in
strictly descending (addedAt, recordId) order; each page queries `limit+1`
records strictly before the cursor position, truncates to `limit` items
and encodes the last kept item's (addedAt, `_id`) as `nextCursor`. -/
theorem c1_pagination_completeness
    {store : List MyListItem} {u : String} {limit : Nat}
    (hlim : 1 ≤ limit)
    (hids : (store.map MyListItem._id).Nodup)
    (hcanon : ∀ r ∈ store, isCanonicalOid r._id)
    (hdates : ∀ r ∈ store, r.addedAt < isoMax)
    (hu : oidNormalize u = u) :
    ∃ all : List MyListItem,
      collectPages store u limit (store.length + 1) none = some all ∧
      all.Perm (store.filter (fun r => r.userId == u)) ∧
      all.Pairwise keyGT := by
  refine ⟨sortedUser store u, ?_, List.mergeSort_perm _ _, sortedUser_pairwise hids⟩
  have hlen : (sortedUser store u).length ≤ store.length := by
    have h1 := (List.mergeSort_perm (store.filter (fun r => r.userId == u)) keyGE).length_eq
    have h2 := (store.filter_sublist (p := fun r => r.userId == u)).length_le
    unfold sortedUser
    omega
  have h := collect_suffix hlim hids hcanon hdates hu (store.length + 1) 0 none
    (by omega) (by omega) (Or.inl ⟨rfl, rfl⟩)
  rw [List.drop_zero] at h
  exact h

def wSnap : Snapshot :=
  { title := "A", posterUrl := none, genres := [], shortDescription := none }

def wUser : String := "00000000000000000000aaaa"

def wStore : List MyListItem :=
  [{ _id := "000000000000000000000002", userId := wUser
     contentId := "0000000000000000000000b2", contentType := .movie
     episodeId := none, addedAt := 2000, snapshot := wSnap
     contentVisibility := .available },
   { _id := "000000000000000000000001", userId := wUser
     contentId := "0000000000000000000000b1", contentType := .movie
     episodeId := none, addedAt := 1000, snapshot := wSnap
     contentVisibility := .available }]

theorem c1_pagination_completeness_witness :
    ∃ all : List MyListItem,
      collectPages wStore wUser 1 (wStore.length + 1) none = some all ∧
      all.Perm (wStore.filter (fun r => r.userId == wUser)) ∧
      all.Pairwise keyGT :=
  c1_pagination_completeness (by decide) (by decide) (by decide) (by decide)
    (by decide)

/-! ### Claim C3 -/

/-- C3: Decoding the cursor produced by encoding a valid (timestamp,
recordId) pair returns exactly that pair; and decode on any token either
succeeds or fails with exactly the `HttpError 400 INVALID_CURSOR` error —
never an unrelated error. -/
theorem c3_cursor_roundtrip_and_failure_mode :
    (∀ (t : Nat) (id : String), t < isoMax → isCanonicalOid id →
      decodeCursorSafe (encodeCursor t id) = .ok (t, id)) ∧
    (∀ token : String,
      (∃ p, decodeCursorSafe token = .ok p) ∨
        decodeCursorSafe token =
          .error ⟨400, "Invalid cursor", some "INVALID_CURSOR"⟩) :=
  ⟨fun _ _ ht hid => decodeCursor_roundtrip ht hid, decodeCursor_total⟩

theorem c3_cursor_roundtrip_and_failure_mode_witness :
    decodeCursorSafe (encodeCursor 0 "000000000000000000000001") =
      .ok (0, "000000000000000000000001") ∧
    ((∃ p, decodeCursorSafe "@@not-base64@@" = .ok p) ∨
      decodeCursorSafe "@@not-base64@@" =
        .error ⟨400, "Invalid cursor", some "INVALID_CURSOR"⟩) :=
  ⟨c3_cursor_roundtrip_and_failure_mode.1 0 "000000000000000000000001"
      (by decide) (by decide),
    c3_cursor_roundtrip_and_failure_mode.2 "@@not-base64@@"⟩

/-! ### Redis model (`myList.cache.ts` and the redis calls of the service)

The key space is modelled as an association list from key strings to
values; a page value is stored structurally (the `JSON.stringify` /
`JSON.parse` round trip is modelled as the identity on payloads). TTLs
only bound staleness in wall-clock time and are modelled as not expiring
within one analysed trace. -/

/-- A redis value: a plain string (version counters) or a serialized page. -/
inductive RVal
  | str (s : String)
  | page (p : ListPayload)
  deriving Repr, DecidableEq

abbrev RedisMap := List (String × RVal)

def rget (m : RedisMap) (k : String) : Option RVal :=
  (m.find? (fun e => e.1 == k)).map (fun e => e.2)

def rset (m : RedisMap) (k : String) (v : RVal) : RedisMap :=
  (k, v) :: m.eraseP (fun e => e.1 == k)

/-- `SETNX` / `SET ... NX`: write only when the key is absent. -/
def rsetnx (m : RedisMap) (k : String) (v : RVal) : RedisMap :=
  if (rget m k).isSome then m else (k, v) :: m

theorem rget_rset_self (m : RedisMap) (k : String) (v : RVal) :
    rget (rset m k v) k = some v := by
  unfold rget rset
  simp [List.find?]

theorem find?_eraseP_ne {k j : String} (h : j ≠ k) :
    ∀ m : RedisMap,
      (m.eraseP (fun e => e.1 == k)).find? (fun e => e.1 == j) =
        m.find? (fun e => e.1 == j) := by
  intro m
  induction m with
  | nil => rfl
  | cons a t ih =>
      rw [List.eraseP_cons]
      by_cases ha : (a.1 == k) = true
      · rw [ha]
        simp only [cond_true]
        have haj : (a.1 == j) = false := by
          simp only [beq_eq_false_iff_ne, ne_eq]
          intro he
          exact h ((beq_iff_eq.mp ha ▸ he).symm)
        rw [List.find?]
        rw [haj]
      · rw [Bool.not_eq_true] at ha
        rw [ha]
        simp only [cond_false]
        rw [List.find?, List.find?]
        cases haj : (a.1 == j)
        · exact ih
        · rfl

theorem rget_rset_other (m : RedisMap) {k j : String} (v : RVal) (h : j ≠ k) :
    rget (rset m k v) j = rget m j := by
  unfold rget rset
  rw [List.find?]
  have hkj : ((k, v).1 == j) = false := by
    simp only [beq_eq_false_iff_ne, ne_eq]
    exact fun he => h he.symm
  rw [hkj, find?_eraseP_ne h]

theorem rget_rsetnx_other (m : RedisMap) {k j : String} (v : RVal) (h : j ≠ k) :
    rget (rsetnx m k v) j = rget m j := by
  unfold rsetnx
  split
  · rfl
  · unfold rget
    rw [List.find?]
    have : ((k, v).1 == j) = false := by
      simp only [beq_eq_false_iff_ne, ne_eq]
      exact fun he => h he.symm
    rw [this]

/-- `mylist:<userId>:version` (`userVersionKey` in `myList.cache.ts`). -/
def userVersionKey (userId : String) : String :=
  "mylist:" ++ userId ++ ":version"

/-- JS number-to-string for the naturals (version counters, limits). -/
def natDigits (n : Nat) : List Char :=
  if n < 10 then [digitChar n] else natDigits (n / 10) ++ [digitChar (n % 10)]
termination_by n
decreasing_by omega

def natStr (n : Nat) : String := ⟨natDigits n⟩

/-- `mylist:<userId>:v<version>:limit<limit>:cursor<cursorOrStart>`
(`pageCacheKey` in `myList.cache.ts`). -/
def pageCacheKey (userId version : String) (limit : Nat) (cursor : Option String) :
    String :=
  "mylist:" ++ userId ++ ":v" ++ version ++ ":limit" ++ natStr limit ++
    ":cursor" ++ (match cursor with | some c => c | none => "start")

theorem parseDigitsAux_append (l1 l2 : List Char) (acc : Nat) :
    parseDigitsAux (l1 ++ l2) acc =
      match parseDigitsAux l1 acc with
      | some a => parseDigitsAux l2 a
      | none => none := by
  induction l1 generalizing acc with
  | nil => rfl
  | cons c t ih =>
      cases hdv : digitVal c with
      | none => simp only [List.cons_append, parseDigitsAux, hdv]
      | some v =>
          simp only [List.cons_append, parseDigitsAux, hdv]
          exact ih _

theorem parseDigitsAux_natDigits (n : Nat) :
    ∀ acc, parseDigitsAux (natDigits n) acc =
      some (acc * 10 ^ (natDigits n).length + n) := by
  induction n using Nat.strong_induction_on with
  | _ n ih =>
      intro acc
      by_cases h : n < 10
      · rw [natDigits, if_pos h]
        unfold parseDigitsAux
        rw [digitVal_digitChar h]
        unfold parseDigitsAux
        simp
      · rw [natDigits, if_neg h]
        rw [parseDigitsAux_append]
        rw [ih (n / 10) (by omega)]
        unfold parseDigitsAux
        rw [digitVal_digitChar (by omega)]
        unfold parseDigitsAux
        congr 1
        rw [List.length_append, List.length_cons, List.length_nil]
        rw [pow_succ, Nat.add_mul, Nat.mul_assoc]
        have h1 := Nat.div_add_mod n 10
        omega

theorem parseDigits_natDigits (n : Nat) : parseDigits (natDigits n) = some n := by
  unfold parseDigits
  rw [parseDigitsAux_natDigits]
  simp

theorem natStr_inj {m n : Nat} (h : natStr m = natStr n) : m = n := by
  have hd : natDigits m = natDigits n := congrArg String.data h
  have hp := parseDigits_natDigits m
  rw [hd, parseDigits_natDigits] at hp
  exact (Option.some_inj.mp hp).symm

theorem natDigits_head :
    ∀ n, ∃ d, d < 10 ∧ ∃ rest, natDigits n = digitChar d :: rest := by
  intro n
  induction n using Nat.strong_induction_on with
  | _ n ih =>
      by_cases h : n < 10
      · exact ⟨n, h, [], by rw [natDigits, if_pos h]⟩
      · obtain ⟨d, hd, rest, hr⟩ := ih (n / 10) (by omega)
        refine ⟨d, hd, rest ++ [digitChar (n % 10)], ?_⟩
        rw [natDigits, if_neg h, hr]
        rfl

theorem pageCacheKey_split (u ver : String) (l : Nat) (c : Option String) :
    pageCacheKey u ver l c =
      ("mylist:" ++ u ++ ":v") ++
        (ver ++ (":limit" ++ natStr l ++ ":cursor" ++
          (match c with | some s => s | none => "start"))) := by
  unfold pageCacheKey
  simp only [← String.append_assoc]

theorem userVersionKey_split (u : String) :
    userVersionKey u = ("mylist:" ++ u ++ ":v") ++ "ersion" := by
  unfold userVersionKey
  have hv : (":version" : String) = ":v" ++ "ersion" := by decide
  rw [hv, ← String.append_assoc]

/-- The page-cache key never collides with the version key of the same
user: after the shared `mylist:<u>:v` front, one continues with a digit,
the other with `e`. -/
theorem pageCacheKey_ne_userVersionKey (u : String) (n : Nat) (l : Nat)
    (c : Option String) :
    pageCacheKey u (natStr n) l c ≠ userVersionKey u := by
  intro h
  rw [pageCacheKey_split, userVersionKey_split] at h
  have h2 := congrArg String.data h
  simp only [String.data_append] at h2
  have h3 := List.append_cancel_left h2
  obtain ⟨d, hd, rest, hr⟩ := natDigits_head n
  have hnat : (natStr n).data = digitChar d :: rest := hr
  rw [hnat] at h3
  have h4 := congrArg List.head? h3
  simp only [List.cons_append, List.head?_cons] at h4
  have h5 : digitChar d = 'e' := Option.some_inj.mp h4
  have h6 := congrArg Char.toNat h5
  rw [digitChar_toNat hd] at h6
  simp only [show ('e').toNat = 101 from by decide] at h6
  omega

/-- The version component separates page-cache keys: same user, same
limit, same cursor but different version counters give different keys. -/
theorem pageCacheKey_version_inj {u : String} {l : Nat} {c : Option String}
    {m n : Nat} (h : pageCacheKey u (natStr m) l c = pageCacheKey u (natStr n) l c) :
    m = n := by
  rw [pageCacheKey_split, pageCacheKey_split] at h
  have h2 := congrArg String.data h
  simp only [String.data_append] at h2
  have h3 := List.append_cancel_left h2
  have h4 := List.append_cancel_right h3
  apply natStr_inj
  cases hm : natStr m with
  | mk dm =>
      cases hn : natStr n with
      | mk dn =>
          rw [hm, hn] at h4
          congr 1

/-! ### The service (`myList.service.ts`) -/

def PAGE_TTL_SECONDS : Nat := 60
def MAX_LIMIT : Nat := 100
def DEFAULT_LIMIT : Nat := 20

structure ListOptions where
  limit : Option Nat
  cursor : Option String
  contentType : Option ContentType
  deriving Repr, DecidableEq

/-- `Math.min(opts.limit ?? DEFAULT_LIMIT, MAX_LIMIT)` — the only limit
processing inside `getList` (note: no lower clamp here; the route layer
supplies positive limits). -/
def limitOf (opts : ListOptions) : Nat :=
  min (opts.limit.getD DEFAULT_LIMIT) MAX_LIMIT

/-- Which of the four redis calls inside `getList` reject. -/
structure GetListFaults where
  versionGet : Bool
  versionSetnx : Bool
  pageGet : Bool
  pageSet : Bool
  deriving Repr, DecidableEq

def noFaults : GetListFaults := ⟨false, false, false, false⟩

/-- `bumpUserVersion`: `INCR` then `EXPIRE`, with every redis failure
caught and logged — the function never throws. `INCR` parses the stored
integer (absent counts as 0) and stores its successor; on a non-integer
value it rejects, and the catch leaves the state unchanged. `EXPIRE`
only refreshes a TTL, which this model does not track. -/
def bumpUserVersion (redis : RedisMap) (userId : String) : RedisMap :=
  match rget redis (userVersionKey userId) with
  | none => rset redis (userVersionKey userId) (.str (natStr 1))
  | some (.str s) =>
      match parseDigits s.data with
      | some m => rset redis (userVersionKey userId) (.str (natStr (m + 1)))
      | none => redis
  | some (.page _) => redis

/-- The `if (opts.cursor)` decode step of `getList`. -/
def cursorDecodeOpt : Option String → Except HttpError (Option (Nat × String))
  | none => .ok none
  | some c =>
      match decodeCursorSafe c with
      | .ok p => .ok (some p)
      | .error e => .error e

/-- `getList` from the page-cache probe onward, once the version string
is in hand. A non-page value under the page key would make `JSON.parse`
throw inside the same `try` and is treated as a miss. -/
def getListCached (store : List MyListItem) (redis : RedisMap) (f : GetListFaults)
    (userId : String) (opts : ListOptions) (includeTotal : Bool)
    (version : String) :
    Except ServiceError ListPayload × RedisMap :=
  let cacheKey := pageCacheKey userId version (limitOf opts) opts.cursor
  let cached : Option ListPayload :=
    if f.pageGet then none
    else match rget redis cacheKey with
      | some (.page p) => some p
      | _ => none
  match cached with
  | some p => (.ok p, redis)
  | none =>
      match cursorDecodeOpt opts.cursor with
      | .error e => (.error (.http e), redis)
      | .ok cur =>
          match buildPage store (oidNormalize userId) opts.contentType cur
              (limitOf opts) includeTotal with
          | none => (.error (.jsError "TypeError"), redis)
          | some payload =>
              (.ok payload,
                if f.pageSet then redis
                else rsetnx redis cacheKey (.page payload))

/-- `getList`: limit clamp, userId validation, version fetch (initialised
with `SETNX "0"` when absent or empty), then the cached read path. The
version `redis.get` and `redis.setnx` are awaited with no `try` around
them, so their rejections propagate out of `getList`. -/
def getList (store : List MyListItem) (redis : RedisMap) (f : GetListFaults)
    (userId : String) (opts : ListOptions) (includeTotal : Bool) :
    Except ServiceError ListPayload × RedisMap :=
  if ¬ isValidObjectId userId then (.error (.jsError "invalid userId"), redis)
  else if f.versionGet then (.error (.redisError "redis get rejected"), redis)
  else
    let v0 : Option String :=
      match rget redis (userVersionKey userId) with
      | some (.str s) => some s
      | _ => none
    if v0 = none ∨ v0 = some "" then
      if f.versionSetnx then (.error (.redisError "redis setnx rejected"), redis)
      else
        getListCached store (rsetnx redis (userVersionKey userId) (.str "0")) f
          userId opts includeTotal "0"
    else
      getListCached store redis f userId opts includeTotal (v0.getD "")

theorem natStr_ne_empty (n : Nat) : natStr n ≠ "" := by
  intro h
  obtain ⟨d, hd, rest, hr⟩ := natDigits_head n
  have hdata : natDigits n = ("" : String).data := congrArg String.data h
  rw [hr] at hdata
  simp at hdata

theorem buildPage_some (store : List MyListItem) (u : String)
    (ct : Option ContentType) (cur : Option (Nat × String)) {limit : Nat}
    (inc : Bool) (hlim : 1 ≤ limit) :
    ∃ p, buildPage store u ct cur limit inc = some p ∧
      p.total = (if inc then some (countForUser store u) else none) := by
  unfold buildPage
  by_cases hlen : limit < (listQuery store u ct cur (limit + 1)).length
  · rw [if_pos hlen, if_pos hlim]
    rw [List.getElem?_eq_getElem (by omega)]
    exact ⟨_, rfl, rfl⟩
  · rw [if_neg hlen]
    exact ⟨_, rfl, rfl⟩

/-- Success of the cached read path: with the cursor decodable (or
absent) and a positive limit, `getListCached` returns `.ok` whatever the
page-cache faults are; and under a page-get fault the payload is the
store-computed one. -/
theorem getListCached_ok {store : List MyListItem} {redis : RedisMap}
    {f : GetListFaults} {u : String} {opts : ListOptions} {inc : Bool}
    {version : String} {cur : Option (Nat × String)}
    (hcur : cursorDecodeOpt opts.cursor = .ok cur)
    (hlim : 1 ≤ limitOf opts) :
    (∃ p, (getListCached store redis f u opts inc version).1 = .ok p) ∧
    (f.pageGet = true →
      ∀ payload,
        buildPage store (oidNormalize u) opts.contentType cur (limitOf opts) inc =
          some payload →
        (getListCached store redis f u opts inc version).1 = .ok payload) := by
  obtain ⟨p0, hp0, _⟩ := buildPage_some store (oidNormalize u)
    opts.contentType cur inc hlim
  by_cases hg : f.pageGet
  · constructor
    · refine ⟨p0, ?_⟩
      unfold getListCached
      simp [hg, hcur, hp0]
    · intro _ payload hbp
      rw [hp0] at hbp
      cases hbp
      unfold getListCached
      simp [hg, hcur, hp0]
  · refine ⟨?_, fun hgt => absurd hgt (by simp [hg])⟩
    unfold getListCached
    cases hrg : rget redis (pageCacheKey u version (limitOf opts) opts.cursor) with
    | none =>
        refine ⟨p0, ?_⟩
        simp [hg, hrg, hcur, hp0]
    | some v =>
        cases v with
        | page p =>
            refine ⟨p, ?_⟩
            simp [hg, hrg]
        | str s =>
            refine ⟨p0, ?_⟩
            simp [hg, hrg, hcur, hp0]

theorem getList_ok {store : List MyListItem} {redis : RedisMap}
    {f : GetListFaults} {u : String} {opts : ListOptions} {inc : Bool}
    {cur : Option (Nat × String)}
    (hvg : f.versionGet = false) (hvs : f.versionSetnx = false)
    (hu : isValidObjectId u = true)
    (hcur : cursorDecodeOpt opts.cursor = .ok cur)
    (hlim : 1 ≤ limitOf opts) :
    ∃ p, (getList store redis f u opts inc).1 = .ok p := by
  unfold getList
  simp only [hu, hvg, not_true_eq_false, Bool.false_eq_true, if_false]
  split
  · simp only [hvs, Bool.false_eq_true, if_false]
    exact (getListCached_ok hcur hlim).1
  · exact (getListCached_ok hcur hlim).1

/-! ### Claim C5 -/

/-- C5 (amended): failures of the page-cache get and page-cache put are
caught and never surface — `getList` still returns a page for any value
of those two fault flags; but the version-key `redis.get` and
`redis.setnx` are not wrapped in `try`, so their failures DO propagate
(see the counterexample). -/
theorem c5_page_cache_faults_swallowed {store : List MyListItem}
    {redis : RedisMap} {u : String} {opts : ListOptions} {inc : Bool}
    {cur : Option (Nat × String)}
    (hu : isValidObjectId u = true)
    (hcur : cursorDecodeOpt opts.cursor = .ok cur)
    (hlim : 1 ≤ limitOf opts) :
    ∀ pageGetFails pageSetFails : Bool,
      ∃ p, (getList store redis ⟨false, false, pageGetFails, pageSetFails⟩
        u opts inc).1 = .ok p :=
  fun _ _ => getList_ok rfl rfl hu hcur hlim

theorem c5_page_cache_faults_swallowed_witness :
    ∃ p, (getList [] [] ⟨false, false, true, true⟩ wUser ⟨none, none, none⟩
      false).1 = .ok p :=
  c5_page_cache_faults_swallowed (by decide) (by rfl) (by decide) true true

/-- C5 counterexample: a rejected version-key `redis.get` is not caught —
`getList` fails with the propagated redis error instead of proceeding
against the store, refuting the claim that every cache-operation failure
is swallowed. -/
theorem c5_version_get_failure_propagates :
    (getList [] [] ⟨true, false, false, false⟩ wUser ⟨none, none, none⟩
      false).1 = .error (.redisError "redis get rejected") := by
  rfl

/-! ### Claim C9 -/

/-- C9: whenever `getList` computes a page with `includeTotal` set, the
attached total is `countDocuments({ userId })` — the number of ALL of the
user's membership records, unfiltered by contentType, even when
`opts.contentType` is an active filter (the page-get fault pins the read
to the store-computing path). -/
theorem c9_total_unfiltered {store : List MyListItem} {redis : RedisMap}
    {f : GetListFaults} {u : String} {opts : ListOptions}
    {cur : Option (Nat × String)}
    (hvg : f.versionGet = false) (hvs : f.versionSetnx = false)
    (hpg : f.pageGet = true)
    (hu : isValidObjectId u = true)
    (hcur : cursorDecodeOpt opts.cursor = .ok cur)
    (hlim : 1 ≤ limitOf opts) :
    ∃ p, (getList store redis f u opts true).1 = .ok p ∧
      p.total = some ((store.filter (fun r => r.userId == oidNormalize u)).length) := by
  obtain ⟨p0, hp0, htot⟩ := buildPage_some store (oidNormalize u)
    opts.contentType cur true hlim
  have htot2 : p0.total =
      some ((store.filter (fun r => r.userId == oidNormalize u)).length) := by
    rw [htot]
    rfl
  unfold getList
  simp only [hu, hvg, not_true_eq_false, Bool.false_eq_true, if_false]
  split
  · simp only [hvs, Bool.false_eq_true, if_false]
    exact ⟨p0, (getListCached_ok hcur hlim).2 hpg p0 hp0, htot2⟩
  · exact ⟨p0, (getListCached_ok hcur hlim).2 hpg p0 hp0, htot2⟩

theorem c9_total_unfiltered_witness :
    ∃ p, (getList wStore [] ⟨false, false, true, false⟩ wUser
        ⟨none, none, some .movie⟩ true).1 = .ok p ∧
      p.total = some ((wStore.filter
        (fun r => r.userId == oidNormalize wUser)).length) :=
  c9_total_unfiltered rfl rfl rfl (by decide) (by rfl) (by decide)

theorem getListCached_miss {store : List MyListItem} {redis : RedisMap}
    {f : GetListFaults} {u : String} {opts : ListOptions} {inc : Bool}
    {version : String} {cur : Option (Nat × String)} {payload : ListPayload}
    (hpg : f.pageGet = false)
    (hmiss : rget redis (pageCacheKey u version (limitOf opts) opts.cursor) = none)
    (hcur : cursorDecodeOpt opts.cursor = .ok cur)
    (hbp : buildPage store (oidNormalize u) opts.contentType cur (limitOf opts) inc =
      some payload) :
    (getListCached store redis f u opts inc version).1 = .ok payload := by
  unfold getListCached
  simp [hpg, hmiss, hcur, hbp]

/-- With the user's version counter present, `getList` leaves redis
unchanged or adds (NX) one entry under the page key of that version. -/
theorem getList_redis_of_version (store : List MyListItem) (redis : RedisMap)
    (f : GetListFaults) {u : String} (opts : ListOptions) (inc : Bool) {n : Nat}
    (hver : rget redis (userVersionKey u) = some (.str (natStr n))) :
    (getList store redis f u opts inc).2 = redis ∨
    ∃ payload, (getList store redis f u opts inc).2 =
      rsetnx redis (pageCacheKey u (natStr n) (limitOf opts) opts.cursor)
        (.page payload) := by
  unfold getList
  by_cases hu : isValidObjectId u
  · simp only [hu, not_true_eq_false, Bool.false_eq_true, if_false]
    by_cases hvg : f.versionGet = true
    · left
      simp [hvg]
    · rw [Bool.not_eq_true] at hvg
      simp only [hvg, Bool.false_eq_true, if_false, hver]
      rw [if_neg (by simp [natStr_ne_empty n])]
      simp only [Option.getD_some]
      unfold getListCached
      cases hcd : cursorDecodeOpt opts.cursor with
      | error e =>
          left
          by_cases hpg : f.pageGet = true
          · simp [hpg, hcd]
          · rw [Bool.not_eq_true] at hpg
            cases hrg : rget redis (pageCacheKey u (natStr n) (limitOf opts)
                opts.cursor) with
            | none => simp [hpg, hrg, hcd]
            | some v => cases v <;> simp [hpg, hrg, hcd]
      | ok cur =>
          cases hbp : buildPage store (oidNormalize u) opts.contentType cur
              (limitOf opts) inc with
          | none =>
              left
              by_cases hpg : f.pageGet = true
              · simp [hpg, hcd, hbp]
              · rw [Bool.not_eq_true] at hpg
                cases hrg : rget redis (pageCacheKey u (natStr n) (limitOf opts)
                    opts.cursor) with
                | none => simp [hpg, hrg, hcd, hbp]
                | some v => cases v <;> simp [hpg, hrg, hcd, hbp]
          | some payload =>
              by_cases hps : f.pageSet = true
              · left
                by_cases hpg : f.pageGet = true
                · simp [hpg, hcd, hbp, hps]
                · rw [Bool.not_eq_true] at hpg
                  cases hrg : rget redis (pageCacheKey u (natStr n) (limitOf opts)
                      opts.cursor) with
                  | none => simp [hpg, hrg, hcd, hbp, hps]
                  | some v => cases v <;> simp [hpg, hrg, hcd, hbp, hps]
              · rw [Bool.not_eq_true] at hps
                by_cases hpg : f.pageGet = true
                · right
                  exact ⟨payload, by simp [hpg, hcd, hbp, hps]⟩
                · rw [Bool.not_eq_true] at hpg
                  cases hrg : rget redis (pageCacheKey u (natStr n) (limitOf opts)
                      opts.cursor) with
                  | none =>
                      right
                      exact ⟨payload, by simp [hpg, hrg, hcd, hbp, hps]⟩
                  | some v =>
                      cases v with
                      | page p => left; simp [hpg, hrg]
                      | str sv =>
                          right
                          exact ⟨payload, by simp [hpg, hrg, hcd, hbp, hps]⟩
  · left
    simp [hu]

/-! ### Claim C2 -/

/-- C2: a List result cached under version V is unreachable after a
successful bump to V+1. The page-cache key differs in its version
component, and a later List call with the same limit and cursor misses
the cache and computes its payload from the (current) membership store. -/
theorem c2_version_bump_invalidates
    {store0 store1 : List MyListItem} {redis0 : RedisMap} {u : String}
    {opts : ListOptions} {inc : Bool} {n : Nat} {cur : Option (Nat × String)}
    (hu : isValidObjectId u = true)
    (hver : rget redis0 (userVersionKey u) = some (.str (natStr n)))
    (hfresh : rget redis0
      (pageCacheKey u (natStr (n + 1)) (limitOf opts) opts.cursor) = none)
    (hcur : cursorDecodeOpt opts.cursor = .ok cur)
    (hlim : 1 ≤ limitOf opts) :
    pageCacheKey u (natStr n) (limitOf opts) opts.cursor ≠
      pageCacheKey u (natStr (n + 1)) (limitOf opts) opts.cursor ∧
    ∃ p, buildPage store1 (oidNormalize u) opts.contentType cur (limitOf opts) inc =
        some p ∧
      (getList store1
          (bumpUserVersion (getList store0 redis0 noFaults u opts inc).2 u)
          noFaults u opts inc).1 = .ok p := by
  have hkeyne : pageCacheKey u (natStr n) (limitOf opts) opts.cursor ≠
      pageCacheKey u (natStr (n + 1)) (limitOf opts) opts.cursor := by
    intro h
    have := pageCacheKey_version_inj h
    omega
  refine ⟨hkeyne, ?_⟩
  have hcases := getList_redis_of_version store0 redis0 noFaults opts inc hver
  have hver1 : rget (getList store0 redis0 noFaults u opts inc).2
      (userVersionKey u) = some (.str (natStr n)) := by
    rcases hcases with h | ⟨payload, h⟩
    · rw [h]; exact hver
    · rw [h, rget_rsetnx_other _ _ (pageCacheKey_ne_userVersionKey u n _ _).symm]
      exact hver
  have hfresh1 : rget (getList store0 redis0 noFaults u opts inc).2
      (pageCacheKey u (natStr (n + 1)) (limitOf opts) opts.cursor) = none := by
    rcases hcases with h | ⟨payload, h⟩
    · rw [h]; exact hfresh
    · rw [h, rget_rsetnx_other _ _ hkeyne.symm]
      exact hfresh
  have hbump : bumpUserVersion (getList store0 redis0 noFaults u opts inc).2 u =
      rset (getList store0 redis0 noFaults u opts inc).2 (userVersionKey u)
        (.str (natStr (n + 1))) := by
    unfold bumpUserVersion
    rw [hver1]
    simp only []
    rw [show (natStr n).data = natDigits n from rfl, parseDigits_natDigits]
  rw [hbump]
  have hver2 : rget (rset (getList store0 redis0 noFaults u opts inc).2
      (userVersionKey u) (.str (natStr (n + 1)))) (userVersionKey u) =
      some (.str (natStr (n + 1))) := rget_rset_self _ _ _
  have hfresh2 : rget (rset (getList store0 redis0 noFaults u opts inc).2
      (userVersionKey u) (.str (natStr (n + 1))))
      (pageCacheKey u (natStr (n + 1)) (limitOf opts) opts.cursor) = none := by
    rw [rget_rset_other _ _ (pageCacheKey_ne_userVersionKey u (n + 1) _ _)]
    exact hfresh1
  obtain ⟨p0, hp0, _⟩ := buildPage_some store1 (oidNormalize u)
    opts.contentType cur inc hlim
  refine ⟨p0, hp0, ?_⟩
  set R2 := rset (getList store0 redis0 noFaults u opts inc).2 (userVersionKey u)
    (.str (natStr (n + 1))) with hR2
  unfold getList
  simp only [hu, not_true_eq_false, Bool.false_eq_true, if_false,
    show noFaults.versionGet = false from rfl, hver2]
  rw [if_neg (by simp [hver2, natStr_ne_empty (n + 1)])]
  simp only [hver2, Option.getD_some]
  exact getListCached_miss rfl hfresh2 hcur hp0

theorem c2_version_bump_invalidates_witness :
    pageCacheKey wUser (natStr 0) (limitOf ⟨none, none, none⟩) none ≠
      pageCacheKey wUser (natStr (0 + 1)) (limitOf ⟨none, none, none⟩) none ∧
    ∃ p, buildPage wStore (oidNormalize wUser) none none
        (limitOf ⟨none, none, none⟩) false = some p ∧
      (getList wStore
          (bumpUserVersion
            (getList [] [(userVersionKey wUser, .str (natStr 0))] noFaults wUser
              ⟨none, none, none⟩ false).2 wUser)
          noFaults wUser ⟨none, none, none⟩ false).1 = .ok p := by
  have hb : (userVersionKey wUser ==
      pageCacheKey wUser (natStr (0 + 1)) (limitOf ⟨none, none, none⟩) none) =
        false :=
    beq_eq_false_iff_ne.mpr
      (pageCacheKey_ne_userVersionKey wUser (0 + 1) (limitOf ⟨none, none, none⟩)
        none).symm
  exact c2_version_bump_invalidates (by decide)
    (by simp [rget, List.find?])
    (by simp [rget, List.find?, hb])
    (by rfl) (by decide)

/-! ### Content collections and `addToList` / `removeFromList` -/

structure Movie where
  _id : String
  title : String
  posterUrl : Option String
  genres : List String
  description : Option String
  deriving Repr, DecidableEq

structure TVShow where
  _id : String
  title : String
  posterUrl : Option String
  genres : List String
  description : Option String
  deriving Repr, DecidableEq

structure Episode where
  _id : String
  showId : Option String
  deriving Repr, DecidableEq

/-- The MongoDB collections the service touches. -/
structure Db where
  users : List String
  movies : List Movie
  shows : List TVShow
  episodes : List Episode
  myList : List MyListItem
  deriving Repr, DecidableEq

structure AddPayload where
  contentId : String
  contentType : ContentType
  episodeId : Option String
  snapshot : Option Snapshot
  deriving Repr, DecidableEq

structure AddResult where
  res : Except ServiceError MyListItem
  db : Db
  redis : RedisMap
  deriving Repr

/-- The snapshot synthesized from a movie when none is supplied. -/
def movieSnapshot (m : Movie) : Snapshot :=
  { title := m.title, posterUrl := m.posterUrl, genres := m.genres
    shortDescription := some (m.description.getD "") }

def showSnapshot (s : TVShow) : Snapshot :=
  { title := s.title, posterUrl := s.posterUrl, genres := s.genres
    shortDescription := some (s.description.getD "") }

/-- The insert/duplicate tail of `addToList`: `MyListItemModel.create` with
the unique (userId, contentId) index; error code 11000 is answered by
returning the existing record. `now` is the `new Date()` taken for
`addedAt`; `newId` the server-assigned `_id`. -/
def addInsert (db : Db) (redis : RedisMap) (userId : String)
    (doc : MyListItem) : AddResult :=
  match db.myList.find? (fun r =>
      r.userId == doc.userId && r.contentId == doc.contentId) with
  | some existing =>
      { res := .ok existing, db := db, redis := bumpUserVersion redis userId }
  | none =>
      { res := .ok doc
        db := { db with myList := db.myList ++ [doc] }
        redis := bumpUserVersion redis userId }

/-- `addToList` from `myList.service.ts`, step for step: id validation,
user existence, content resolution and snapshot synthesis, episode
validation for tvshows, movie/episodeId exclusion, then insert with
idempotent duplicate handling. `some ""` for `episodeId` is falsy in JS
and behaves as absent. -/
def addToList (db : Db) (redis : RedisMap) (userId : String)
    (payload : AddPayload) (now : Nat) (newId : String) : AddResult :=
  if ¬ isValidObjectId userId then
    { res := .error (.http ⟨400, "invalid userId", some "INVALID_USER_ID"⟩)
      db := db, redis := redis }
  else if ¬ isValidObjectId payload.contentId then
    { res := .error (.http ⟨400, "invalid contentId", some "INVALID_CONTENT_ID"⟩)
      db := db, redis := redis }
  else
    let epRaw : Option String :=
      match payload.episodeId with
      | some s => if s = "" then none else some s
      | none => none
    if epRaw.isSome ∧ ¬ isValidObjectId (epRaw.getD "") then
      { res := .error (.http ⟨400, "invalid episodeId", some "INVALID_EPISODE_ID"⟩)
        db := db, redis := redis }
    else
      let userOid := oidNormalize userId
      let contentOid := oidNormalize payload.contentId
      let episodeOid := epRaw.map oidNormalize
      if ¬ db.users.contains userOid then
        { res := .error (.http ⟨404, "user not found", some "USER_NOT_FOUND"⟩)
          db := db, redis := redis }
      else
        match payload.contentType with
        | .movie =>
            match db.movies.find? (fun m => m._id == contentOid) with
            | none =>
                { res := .error (.http ⟨404, "movie not found",
                    some "CONTENT_NOT_FOUND"⟩), db := db, redis := redis }
            | some movie =>
                let snapshot := payload.snapshot.getD (movieSnapshot movie)
                if episodeOid.isSome then
                  { res := .error (.http ⟨400, "episodeId provided for movie contentType",
                      some "INVALID_PAYLOAD"⟩), db := db, redis := redis }
                else
                  addInsert db redis userId
                    { _id := newId, userId := userOid, contentId := contentOid
                      contentType := .movie, episodeId := none, addedAt := now
                      snapshot := snapshot, contentVisibility := .available }
        | .tvshow =>
            match db.shows.find? (fun s => s._id == contentOid) with
            | none =>
                { res := .error (.http ⟨404, "tv show not found",
                    some "CONTENT_NOT_FOUND"⟩), db := db, redis := redis }
            | some show2 =>
                let snapshot := payload.snapshot.getD (showSnapshot show2)
                match episodeOid with
                | some e =>
                    match db.episodes.find? (fun ep => ep._id == e) with
                    | none =>
                        { res := .error (.http ⟨404, "episode not found",
                            some "EPISODE_NOT_FOUND"⟩), db := db, redis := redis }
                    | some episode =>
                        match episode.showId with
                        | none =>
                            { res := .error (.http ⟨400,
                                "episode does not belong to provided tv show",
                                some "EPISODE_MISMATCH"⟩), db := db, redis := redis }
                        | some linkedShowId =>
                            if oidNormalize linkedShowId ≠ contentOid then
                              { res := .error (.http ⟨400,
                                  "episode does not belong to provided tv show",
                                  some "EPISODE_MISMATCH"⟩), db := db, redis := redis }
                            else
                              addInsert db redis userId
                                { _id := newId, userId := userOid
                                  contentId := contentOid, contentType := .tvshow
                                  episodeId := some e, addedAt := now
                                  snapshot := snapshot
                                  contentVisibility := .available }
                | none =>
                    addInsert db redis userId
                      { _id := newId, userId := userOid, contentId := contentOid
                        contentType := .tvshow, episodeId := none, addedAt := now
                        snapshot := snapshot, contentVisibility := .available }

structure RemoveResult where
  res : Except ServiceError (Option MyListItem)
  db : Db
  redis : RedisMap
  deriving Repr

/-- `removeFromList`: `findOneAndDelete({userId, contentId})`, bumping the
version only when a record was deleted. `new Types.ObjectId(x)` throws on
malformed input and the surrounding catch converts it to the 500
`INTERNAL_ERROR`. -/
def removeFromList (db : Db) (redis : RedisMap) (userId contentId : String) :
    RemoveResult :=
  if ¬ isValidObjectId userId ∨ ¬ isValidObjectId contentId then
    { res := .error (.http ⟨500, "failed to remove item from list",
        some "INTERNAL_ERROR"⟩), db := db, redis := redis }
  else
    match db.myList.find? (fun r =>
        r.userId == oidNormalize userId && r.contentId == oidNormalize contentId) with
    | some rec =>
        { res := .ok (some rec)
          db := { db with myList := db.myList.eraseP (fun r =>
            r.userId == oidNormalize userId &&
              r.contentId == oidNormalize contentId) }
          redis := bumpUserVersion redis userId }
    | none => { res := .ok none, db := db, redis := redis }

/-! ### Claim C4 -/

theorem addToList_movie_insert (db : Db) (redis : RedisMap) {u : String}
    {p : AddPayload} {movie : Movie} (now : Nat) (newId : String)
    (hu : isValidObjectId u = true)
    (hcid : isValidObjectId p.contentId = true)
    (hct : p.contentType = .movie)
    (hep : p.episodeId = none)
    (huser : db.users.contains (oidNormalize u) = true)
    (hmovie : db.movies.find? (fun m => m._id == oidNormalize p.contentId) =
      some movie) :
    addToList db redis u p now newId =
      addInsert db redis u
        { _id := newId, userId := oidNormalize u
          contentId := oidNormalize p.contentId, contentType := .movie
          episodeId := none, addedAt := now
          snapshot := p.snapshot.getD (movieSnapshot movie)
          contentVisibility := .available } := by
  have huser2 : oidNormalize u ∈ db.users := by
    simpa using huser
  unfold addToList
  simp [hu, hcid, hct, hep, huser2, hmovie]

/-- C4: Add is idempotent per (userId, contentId): adding the same movie
twice leaves exactly one membership record for the pair, and both calls
return success with the same record — the second call answers the
uniqueness conflict by fetching and returning the existing record. -/
theorem c4_idempotent_add {db0 : Db} {redis0 : RedisMap} {u : String}
    {p : AddPayload} {movie : Movie} {now1 now2 : Nat} {id1 id2 : String}
    (hu : isValidObjectId u = true)
    (hcid : isValidObjectId p.contentId = true)
    (hct : p.contentType = .movie)
    (hep : p.episodeId = none)
    (huser : db0.users.contains (oidNormalize u) = true)
    (hmovie : db0.movies.find? (fun m => m._id == oidNormalize p.contentId) =
      some movie)
    (hfresh : db0.myList.find? (fun r => r.userId == oidNormalize u &&
      r.contentId == oidNormalize p.contentId) = none) :
    ∃ rec : MyListItem,
      (addToList db0 redis0 u p now1 id1).res = .ok rec ∧
      (addToList (addToList db0 redis0 u p now1 id1).db
        (addToList db0 redis0 u p now1 id1).redis u p now2 id2).res = .ok rec ∧
      (addToList (addToList db0 redis0 u p now1 id1).db
        (addToList db0 redis0 u p now1 id1).redis u p now2 id2).db =
        (addToList db0 redis0 u p now1 id1).db ∧
      (addToList (addToList db0 redis0 u p now1 id1).db
          (addToList db0 redis0 u p now1 id1).redis u p now2 id2).db.myList.filter
        (fun r => r.userId == oidNormalize u &&
          r.contentId == oidNormalize p.contentId) = [rec] := by
  have h1 := addToList_movie_insert db0 redis0 now1 id1 hu hcid hct hep huser
    hmovie
  set doc : MyListItem :=
    { _id := id1
      userId := oidNormalize u
      contentId := oidNormalize p.contentId
      contentType := .movie
      episodeId := none
      addedAt := now1
      snapshot := p.snapshot.getD (movieSnapshot movie)
      contentVisibility := .available } with hdocdef
  have hfreshd : db0.myList.find? (fun r =>
      r.userId == doc.userId && r.contentId == doc.contentId) = none := hfresh
  have hstep1 : addToList db0 redis0 u p now1 id1 =
      { res := .ok doc
        db := { db0 with myList := db0.myList ++ [doc] }
        redis := bumpUserVersion redis0 u } := by
    rw [h1]
    unfold addInsert
    rw [hfreshd]
  have hpredtrue : (doc.userId == oidNormalize u &&
      doc.contentId == oidNormalize p.contentId) = true := by
    rw [hdocdef]
    simp
  have hfind2 : (db0.myList ++ [doc]).find? (fun r =>
      r.userId == oidNormalize u && r.contentId == oidNormalize p.contentId) =
      some doc := by
    rw [List.find?_append, hfresh]
    rw [List.find?]
    rw [hpredtrue]
    rfl
  have h2 := addToList_movie_insert { db0 with myList := db0.myList ++ [doc] }
    (bumpUserVersion redis0 u) now2 id2 hu hcid hct hep huser hmovie
  have hstep2 : addToList { db0 with myList := db0.myList ++ [doc] }
      (bumpUserVersion redis0 u) u p now2 id2 =
      { res := .ok doc
        db := { db0 with myList := db0.myList ++ [doc] }
        redis := bumpUserVersion (bumpUserVersion redis0 u) u } := by
    rw [h2]
    unfold addInsert
    rw [show ({ db0 with myList := db0.myList ++ [doc] } : Db).myList.find?
        (fun r => r.userId == oidNormalize u &&
          r.contentId == oidNormalize p.contentId) = some doc from hfind2]
  have hfilter : (db0.myList ++ [doc]).filter (fun r =>
      r.userId == oidNormalize u && r.contentId == oidNormalize p.contentId) =
      [doc] := by
    rw [List.filter_append]
    rw [List.filter_eq_nil_iff.mpr (List.find?_eq_none.mp hfresh)]
    rw [List.filter, hpredtrue]
    rfl
  refine ⟨doc, ?_, ?_, ?_, ?_⟩
  · rw [hstep1]
  · rw [hstep1]
    exact congrArg AddResult.res hstep2
  · rw [hstep1, hstep2]
  · rw [hstep1, hstep2]
    exact hfilter

def wMovie : Movie :=
  { _id := "0000000000000000000000b1", title := "Inception", posterUrl := none
    genres := [], description := none }

def wDb : Db :=
  { users := [wUser], movies := [wMovie], shows := [], episodes := [], myList := [] }

def wAdd : AddPayload :=
  { contentId := "0000000000000000000000b1", contentType := .movie
    episodeId := none, snapshot := none }

theorem c4_idempotent_add_witness :
    ∃ rec : MyListItem,
      (addToList wDb [] wUser wAdd 1000 "000000000000000000000011").res = .ok rec ∧
      (addToList (addToList wDb [] wUser wAdd 1000 "000000000000000000000011").db
        (addToList wDb [] wUser wAdd 1000 "000000000000000000000011").redis wUser
        wAdd 2000 "000000000000000000000012").res = .ok rec ∧
      (addToList (addToList wDb [] wUser wAdd 1000 "000000000000000000000011").db
        (addToList wDb [] wUser wAdd 1000 "000000000000000000000011").redis wUser
        wAdd 2000 "000000000000000000000012").db =
        (addToList wDb [] wUser wAdd 1000 "000000000000000000000011").db ∧
      (addToList (addToList wDb [] wUser wAdd 1000 "000000000000000000000011").db
          (addToList wDb [] wUser wAdd 1000 "000000000000000000000011").redis wUser
          wAdd 2000 "000000000000000000000012").db.myList.filter
        (fun r => r.userId == oidNormalize wUser &&
          r.contentId == oidNormalize wAdd.contentId) = [rec] :=
  c4_idempotent_add (by decide) (by decide) rfl rfl (by decide)
    (show wDb.movies.find? (fun m => m._id == oidNormalize wAdd.contentId) =
      some wMovie by decide)
    (by decide)

/-! ### Claim C7 -/

/-- C7 (amended): for an Add with contentType tvshow and an episode that
exists but belongs to a different show, the operation fails with a
BadRequest error — HTTP 400, code EPISODE_MISMATCH (not a 409 Conflict) —
while a non-existent episode fails with NotFound (404,
EPISODE_NOT_FOUND); in both cases nothing is inserted and the version is
not bumped. -/
theorem c7_episode_mismatch_is_400 {db : Db} {redis : RedisMap} {u : String}
    {p : AddPayload} {e : String} {show2 : TVShow} {now : Nat} {newId : String}
    (hu : isValidObjectId u = true)
    (hcid : isValidObjectId p.contentId = true)
    (hct : p.contentType = .tvshow)
    (hep : p.episodeId = some e)
    (hene : e ≠ "")
    (hev : isValidObjectId e = true)
    (huser : db.users.contains (oidNormalize u) = true)
    (hshow : db.shows.find? (fun s => s._id == oidNormalize p.contentId) =
      some show2) :
    (∀ episode, db.episodes.find? (fun ep => ep._id == oidNormalize e) =
        some episode →
      ∀ sid, episode.showId = some sid →
        oidNormalize sid ≠ oidNormalize p.contentId →
        addToList db redis u p now newId =
          { res := .error (.http ⟨400, "episode does not belong to provided tv show",
              some "EPISODE_MISMATCH"⟩), db := db, redis := redis }) ∧
    (db.episodes.find? (fun ep => ep._id == oidNormalize e) = none →
      addToList db redis u p now newId =
        { res := .error (.http ⟨404, "episode not found",
            some "EPISODE_NOT_FOUND"⟩), db := db, redis := redis }) := by
  have huser2 : oidNormalize u ∈ db.users := by simpa using huser
  constructor
  · intro episode hfind sid hsid hmismatch
    unfold addToList
    simp [hu, hcid, hct, hep, hene, hev, huser2, hshow, hfind, hsid, hmismatch]
  · intro hfind
    unfold addToList
    simp [hu, hcid, hct, hep, hene, hev, huser2, hshow, hfind]

def c7db : Db :=
  { users := [wUser], movies := []
    shows := [{ _id := "0000000000000000000000c1", title := "Test Show"
                posterUrl := none, genres := [], description := none }]
    episodes := [{ _id := "0000000000000000000000e1"
                   showId := some "0000000000000000000000c2" }]
    myList := [] }

def c7p : AddPayload :=
  { contentId := "0000000000000000000000c1", contentType := .tvshow
    episodeId := some "0000000000000000000000e1", snapshot := some wSnap }

/-- C7 counterexample: at this concrete input the episode exists but
belongs to another show, and `addToList` fails with HTTP status 400
(`EPISODE_MISMATCH`) — not with a 409 Conflict as the claim states. -/
theorem c7_mismatch_is_not_conflict :
    (addToList c7db [] wUser c7p 0 "000000000000000000000009").res =
      .error (.http ⟨400, "episode does not belong to provided tv show",
        some "EPISODE_MISMATCH"⟩) ∧
    (∀ he : HttpError,
      (addToList c7db [] wUser c7p 0 "000000000000000000000009").res =
        .error (.http he) → ¬ he.status = 409) := by
  refine ⟨rfl, ?_⟩
  intro he h
  rw [show (addToList c7db [] wUser c7p 0 "000000000000000000000009").res =
    .error (.http ⟨400, "episode does not belong to provided tv show",
      some "EPISODE_MISMATCH"⟩) from rfl] at h
  cases h
  decide

theorem c7_episode_mismatch_is_400_witness :
    addToList c7db [] wUser c7p 0 "000000000000000000000009" =
      { res := .error (.http ⟨400, "episode does not belong to provided tv show",
          some "EPISODE_MISMATCH"⟩), db := c7db, redis := [] } :=
  (c7_episode_mismatch_is_400 (by decide) (by decide) rfl rfl (by decide)
      (by decide) (by decide)
      (show c7db.shows.find? (fun s => s._id == oidNormalize c7p.contentId) =
        some { _id := "0000000000000000000000c1", title := "Test Show"
               posterUrl := none, genres := [], description := none } by decide)).1
    { _id := "0000000000000000000000e1", showId := some "0000000000000000000000c2" }
    (by decide) "0000000000000000000000c2" rfl (by decide)

/-! ### Claim C8 -/

/-- C8: removing a (userId, contentId) pair with no matching membership
record is a normal negative result: `removeFromList` returns the falsy
`null`, the membership store is unchanged, and the user's version counter
is not bumped. -/
theorem c8_remove_nonexistent {db : Db} {redis : RedisMap} {u cid : String}
    (hu : isValidObjectId u = true)
    (hcid : isValidObjectId cid = true)
    (hnone : db.myList.find? (fun r => r.userId == oidNormalize u &&
      r.contentId == oidNormalize cid) = none) :
    removeFromList db redis u cid = { res := .ok none, db := db, redis := redis } := by
  unfold removeFromList
  rw [if_neg (by simp [hu, hcid])]
  rw [hnone]

theorem c8_remove_nonexistent_witness :
    removeFromList wDb [] wUser "0000000000000000000000b9" =
      { res := .ok none, db := wDb, redis := [] } :=
  c8_remove_nonexistent (by decide) (by decide) (by decide)

/-! ### Claim C6 -/

/-- `toNumberOrDefault` from `src/utils/pagination.ts`, over the integer
query values (`Number(v)` is the identity there and always finite;
`undefined` gives NaN, hence the default). -/
def toNumberOrDefault (v : Option Int) (d : Int) : Int :=
  match v with
  | none => d
  | some n => if n > 0 then n else d

/-- The limit reaching the store query: the route's
`toNumberOrDefault(req.query.limit, 20)` composed with the service's
`Math.min(opts.limit ?? DEFAULT_LIMIT, MAX_LIMIT)`. -/
def listItemsLimit (q : Option Int) : Int :=
  min (toNumberOrDefault q 20) 100

/-- C6: the List limit is clamped to [1, maxLimit] (100): absent or
non-positive limits become the default 20, limits above 100 become 100,
and in-range limits pass through, so the store is always queried with a
page limit in [1, 100]. -/
theorem c6_limit_clamped :
    (∀ q : Option Int, 1 ≤ listItemsLimit q ∧ listItemsLimit q ≤ 100) ∧
    listItemsLimit none = 20 ∧
    (∀ n : Int, n ≤ 0 → listItemsLimit (some n) = 20) ∧
    (∀ n : Int, 100 < n → listItemsLimit (some n) = 100) ∧
    (∀ n : Int, 1 ≤ n → n ≤ 100 → listItemsLimit (some n) = n) := by
  refine ⟨?_, ?_, ?_, ?_, ?_⟩
  · intro q
    cases q with
    | none => constructor <;> decide
    | some n =>
        unfold listItemsLimit toNumberOrDefault
        split <;> constructor <;> omega
  · decide
  · intro n hn
    unfold listItemsLimit toNumberOrDefault
    simp only []
    rw [if_neg (by omega)]
    decide
  · intro n hn
    unfold listItemsLimit toNumberOrDefault
    simp only []
    rw [if_pos (by omega)]
    omega
  · intro n h1 h2
    unfold listItemsLimit toNumberOrDefault
    simp only []
    rw [if_pos (by omega)]
    omega

theorem c6_limit_clamped_witness :
    (1 ≤ listItemsLimit (some 7) ∧ listItemsLimit (some 7) ≤ 100) ∧
    listItemsLimit (some (-5)) = 20 ∧
    listItemsLimit (some 250) = 100 ∧
    listItemsLimit (some 42) = 42 :=
  ⟨c6_limit_clamped.1 (some 7),
    c6_limit_clamped.2.2.1 (-5) (by decide),
    c6_limit_clamped.2.2.2.1 250 (by decide),
    c6_limit_clamped.2.2.2.2 42 (by decide) (by decide)⟩

end MyListSpec
